import Mathlib

/-!
# CICD360: a verification development for the HTTP service in `main.go`

The program is a small `net/http` service: three JSON handlers, a logging and a
CORS middleware, and a `ServeMux` with three registrations.

A Go string is embedded as the list of its bytes.  A handler is a state
transformer over a context that holds the response writer, the process log and
the clock.  The parts of the Go standard library the program calls
(`http.ResponseWriter`, `http.Error`, `unicode/utf8`, `encoding/json`,
`http.ServeMux`), in their form as of Go 1.23, are modelled after their
documented behaviour and code; every such definition says so.
-/

namespace CICD360

/-- A Go string: a sequence of bytes (natural numbers below 256), not
necessarily well-formed UTF-8. -/
abbrev Str := List Nat

/-! ## `unicode/utf8` -/

/-- Library `utf8.RuneError`, the replacement character U+FFFD. -/
def RuneError : Nat := 0xFFFD

/-- Library `utf8.EncodeRune`: the UTF-8 encoding of a rune; a surrogate or a
value above U+10FFFF is encoded as U+FFFD.  Shifts and masks are written as
divisions and remainders. -/
def EncodeRune (r : Nat) : Str :=
  if r < 0x80 then [r]
  else if r < 0x800 then [0xC0 + r / 64, 0x80 + r % 64]
  else if 0x10FFFF < r ∨ (0xD800 ≤ r ∧ r ≤ 0xDFFF) then [0xEF, 0xBF, 0xBD]
  else if r < 0x10000 then [0xE0 + r / 4096, 0x80 + r / 64 % 64, 0x80 + r % 64]
  else [0xF0 + r / 262144, 0x80 + r / 4096 % 64, 0x80 + r / 64 % 64, 0x80 + r % 64]

/-- The table `first` of `unicode/utf8` for a lead byte of a multi-byte
sequence: the length of the sequence and the range accepted for the second
byte; `none` for a byte that cannot begin one. -/
def first (p0 : Nat) : Option (Nat × Nat × Nat) :=
  if p0 < 0xC2 then none
  else if p0 ≤ 0xDF then some (2, 0x80, 0xBF)
  else if p0 = 0xE0 then some (3, 0xA0, 0xBF)
  else if p0 ≤ 0xEC then some (3, 0x80, 0xBF)
  else if p0 = 0xED then some (3, 0x80, 0x9F)
  else if p0 ≤ 0xEF then some (3, 0x80, 0xBF)
  else if p0 = 0xF0 then some (4, 0x90, 0xBF)
  else if p0 ≤ 0xF3 then some (4, 0x80, 0xBF)
  else if p0 = 0xF4 then some (4, 0x80, 0x8F)
  else none

/-- Library `utf8.DecodeRune` (`DecodeRuneInString`): the first rune of the
bytes and its width; `(RuneError, 1)` when the bytes do not begin with a
well-formed encoding, `(RuneError, 0)` when there are none. -/
def DecodeRune : Str → Nat × Nat
  | [] => (RuneError, 0)
  | p0 :: rest =>
    if p0 < 0x80 then (p0, 1)
    else
      match first p0 with
      | none => (RuneError, 1)
      | some (sz, lo, hi) =>
        if (p0 :: rest).length < sz then (RuneError, 1)
        else
          match rest with
          | [] => (RuneError, 1)
          | b1 :: rest1 =>
            if b1 < lo ∨ hi < b1 then (RuneError, 1)
            else if sz ≤ 2 then (p0 % 32 * 64 + b1 % 64, 2)
            else
              match rest1 with
              | [] => (RuneError, 1)
              | b2 :: rest2 =>
                if b2 < 0x80 ∨ 0xBF < b2 then (RuneError, 1)
                else if sz ≤ 3 then (p0 % 16 * 4096 + b1 % 64 * 64 + b2 % 64, 3)
                else
                  match rest2 with
                  | [] => (RuneError, 1)
                  | b3 :: _ =>
                    if b3 < 0x80 ∨ 0xBF < b3 then (RuneError, 1)
                    else (p0 % 8 * 262144 + b1 % 64 * 4096 + b2 % 64 * 64 + b3 % 64, 4)

/-- The UTF-8 encoding of a sequence of Unicode scalar values. -/
def encodeRunes : List Char → Str
  | [] => []
  | c :: cs => EncodeRune c.toNat ++ encodeRunes cs

/-- The bytes of a Go string literal (Go source is UTF-8). -/
def utf8 (s : String) : Str := encodeRunes s.toList

/-- Well-formed UTF-8 (`utf8.ValidString`): the bytes are the encoding of a
sequence of Unicode scalar values. -/
def ValidString (s : Str) : Prop := ∃ t : String, s = utf8 t

/-! ## `net/http`: headers and the response writer -/

/-- The `http.Header` map restricted to single-valued entries.  All keys the
program uses are literals already in canonical MIME form. -/
structure Header where
  entries : List (Str × Str)

/-- Library `Header.Get`: the value stored under the key, or the empty string. -/
def Header.Get (h : Header) (key : Str) : Str :=
  (h.entries.lookup key).getD []

/-- Library `Header.Del`: removes the key. -/
def Header.Del (h : Header) (key : Str) : Header :=
  ⟨h.entries.filter (fun e => !(e.1 == key))⟩

/-- Library `Header.Set`: replaces whatever is stored under the key. -/
def Header.Set (h : Header) (key value : Str) : Header :=
  ⟨(key, value) :: (h.Del key).entries⟩

/-- State of an `http.ResponseWriter`.

* `header` is the live map returned by `w.Header()`;
* `wroteHeader`, `code` and `sent` record the first `WriteHeader` call and the
  copy of the header map taken by it (later changes of the map are not sent);
* `body` is what has been written so far;
* `failure n` is the error, if any, that the `n`-th call of `Write` returns
  (a failed `Write` adds nothing to the body); `writes` counts the calls. -/
structure ResponseWriter where
  header : Header
  wroteHeader : Bool
  code : Nat
  sent : Header
  body : Str
  writes : Nat
  failure : Nat → Option Str

/-- A writer on which nothing has been set or written, as the server (or
`httptest.NewRecorder`) hands it to the outermost handler. -/
def ResponseWriter.fresh (failure : Nat → Option Str) : ResponseWriter :=
  { header := ⟨[]⟩, wroteHeader := false, code := 0, sent := ⟨[]⟩, body := [],
    writes := 0, failure := failure }

/-- The writer of `httptest.NewRecorder()`: its `Write` never fails. -/
def NewRecorder : ResponseWriter := ResponseWriter.fresh (fun _ => none)

/-- Library `w.Header().Set(key, value)`. -/
def ResponseWriter.SetHeader (w : ResponseWriter) (key value : Str) : ResponseWriter :=
  { w with header := w.header.Set key value }

/-- Library `w.Header().Del(key)`. -/
def ResponseWriter.DelHeader (w : ResponseWriter) (key : Str) : ResponseWriter :=
  { w with header := w.header.Del key }

/-- Library `w.WriteHeader(code)`: the first call fixes the status code and the headers
that are sent; every later call is superfluous and ignored. -/
def ResponseWriter.WriteHeader (w : ResponseWriter) (code : Nat) : ResponseWriter :=
  if w.wroteHeader then w
  else { w with wroteHeader := true, code := code, sent := w.header }

/-- Library `w.Write(data)`: writes the header with status 200 if none was written, then
appends the data unless this call fails; returns the error of the call. -/
def ResponseWriter.Write (w : ResponseWriter) (data : Str) : ResponseWriter × Option Str :=
  let w1 := w.WriteHeader 200
  match w1.failure w1.writes with
  | none => ({ w1 with body := w1.body ++ data, writes := w1.writes + 1 }, none)
  | some err => ({ w1 with writes := w1.writes + 1 }, some err)

/-- Status code the client receives: the one of the first `WriteHeader`, or 200
when the handler returned without writing a header. -/
def ResponseWriter.Status (w : ResponseWriter) : Nat :=
  if w.wroteHeader then w.code else 200

/-- Headers the client receives: the copy taken by the first `WriteHeader`, or
the live map when the handler returned without writing a header. -/
def ResponseWriter.SentHeader (w : ResponseWriter) : Header :=
  if w.wroteHeader then w.sent else w.header

/-- Library `http.Error(w, error, code)`: drops `Content-Length`, sets the plain-text
content type and `nosniff`, calls `WriteHeader(code)` and prints the message
followed by a newline. -/
def Error (w : ResponseWriter) (error : Str) (code : Nat) : ResponseWriter :=
  let w1 := w.DelHeader (utf8 "Content-Length")
  let w2 := w1.SetHeader (utf8 "Content-Type") (utf8 "text/plain; charset=utf-8")
  let w3 := w2.SetHeader (utf8 "X-Content-Type-Options") (utf8 "nosniff")
  let w4 := w3.WriteHeader code
  (w4.Write (error ++ [0x0A])).1

/-- Library `http.StatusOK`. -/
def StatusOK : Nat := 200

/-- Library `http.StatusInternalServerError`. -/
def StatusInternalServerError : Nat := 500

/-! ## Requests, the ambient state and handlers -/

/-- The fields of `http.Request` the program and the router read. -/
structure Request where
  Method : Str
  /-- The path of the request URL, `r.URL.Path`, percent-escapes decoded. -/
  Path : Str
  /-- The value of `r.URL.EscapedPath()`: the path in the escaped form in which
  it was sent, when that form is recorded (`r.URL.RawPath`) and is a valid
  encoding of `Path`, else the escaping of `Path`. -/
  EscapedPath : Str
  RequestURI : Str
  RemoteAddr : Str
  ProtoMajor : Nat
  ProtoMinor : Nat

/-- Library `r.ProtoAtLeast(major, minor)`. -/
def Request.ProtoAtLeast (r : Request) (major minor : Nat) : Bool :=
  r.ProtoMajor > major || (r.ProtoMajor == major && r.ProtoMinor >= minor)

/-- What a handler can read and change: the response writer, the lines printed
with `log.Printf`, and the clock (`now`, read by `time.Now()`; reading it does
not change it, a handler may take time and so advance it). -/
structure Ctx where
  w : ResponseWriter
  log : List Str
  now : Nat

/-- An `http.Handler`: `ServeHTTP(w, r)` as a transformer of the context. -/
abbrev Handler := Request → Ctx → Ctx

/-! ## Process-wide values -/

/-- What the process is started with, and the library functions whose output
format the program only passes on. -/
structure Process where
  /-- The environment at process start (`os.Environ`); the first entry of a
  name is the one `os.Getenv` sees. -/
  env : List (Str × Str)
  /-- The instant `startTime = time.Now()` is evaluated. -/
  startTime : Nat
  /-- The instant `buildTime = time.Now().Format(...)` is evaluated. -/
  buildNow : Nat
  /-- The result of `runtime.Version()`. -/
  goVersion : Str
  /-- The function `t.Format(time.RFC3339)`. -/
  formatRFC3339 : Nat → Str
  /-- The function `time.Duration.String`. -/
  durationString : Int → Str

/-- Library `os.Getenv`: the value of the variable, empty when it is not set. -/
def Getenv (env : List (Str × Str)) (key : Str) : Str :=
  (env.lookup key).getD []

/-- Source `getEnv` of `main.go`. -/
def getEnv (env : List (Str × Str)) (key fallback : Str) : Str :=
  let value := Getenv env key
  if value ≠ [] then value else fallback

/-- Source `version` of `main.go`. -/
def version : Str := (utf8 "1.0.0")

/-- Source `appName` of `main.go`. -/
def appName : Str := (utf8 "CICD360")

/-- Source `buildTime` of `main.go`. -/
def buildTime (p : Process) : Str := p.formatRFC3339 p.buildNow

/-- Source `environment` of `main.go`. -/
def environment (p : Process) : Str :=
  getEnv p.env (utf8 "ENVIRONMENT") (utf8 "development")

/-! ## `encoding/json`: what `Encoder.Encode` writes -/

/-- The digit table `hex` of `encoding/json`. -/
def hex (n : Nat) : Nat := (utf8 "0123456789abcdef").getD n 0

/-- An ASCII byte of a Go string as `appendString` of `encoding/json` writes it
inside a JSON string literal (the encoder escapes HTML, its default). -/
def escapeASCII (b : Nat) : Str :=
  if b = '\\'.toNat ∨ b = '"'.toNat then ['\\'.toNat, b]
  else if b = 0x08 then utf8 "\\b"
  else if b = 0x0C then utf8 "\\f"
  else if b = '\n'.toNat then utf8 "\\n"
  else if b = '\r'.toNat then utf8 "\\r"
  else if b = '\t'.toNat then utf8 "\\t"
  else if b < 0x20 ∨ b = '<'.toNat ∨ b = '>'.toNat ∨ b = '&'.toNat then
    utf8 "\\u00" ++ [hex (b / 16), hex (b % 16)]
  else [b]

/-- The loop of `appendString` over the bytes of a Go string; `skip` counts the
bytes still to step over of a rune already handled (`i += size`).  A byte that
does not begin a well-formed encoding is written as the escape of U+FFFD, the
separators U+2028 and U+2029 are escaped, every other rune is copied. -/
def escapeFrom : Nat → Str → Str
  | _, [] => []
  | skip + 1, _ :: rest => escapeFrom skip rest
  | 0, b :: rest =>
    if b < 0x80 then escapeASCII b ++ escapeFrom 0 rest
    else
      let (c, size) := DecodeRune (b :: rest)
      if c = RuneError ∧ size = 1 then utf8 "\\ufffd" ++ escapeFrom 0 rest
      else if c = 0x2028 ∨ c = 0x2029 then
        utf8 "\\u202" ++ hex (c % 16) :: escapeFrom (size - 1) rest
      else (b :: rest).take size ++ escapeFrom (size - 1) rest

/-- The bytes of a string, escaped. -/
def escape (s : Str) : Str := escapeFrom 0 s

/-- A JSON string literal. -/
def quote (s : Str) : Str := '"'.toNat :: (escape s ++ ['"'.toNat])

/-- One member `"key":"value"` of a JSON object. -/
def encodeMember (kv : Str × Str) : Str := quote kv.1 ++ ':'.toNat :: quote kv.2

/-- The members of a JSON object, separated by commas. -/
def encodeMembers : List (Str × Str) → Str
  | [] => []
  | [kv] => encodeMember kv
  | kv :: rest => encodeMember kv ++ ','.toNat :: encodeMembers rest

/-- A JSON object whose values are strings. -/
def encodeObject (members : List (Str × Str)) : Str :=
  '{'.toNat :: (encodeMembers members ++ ['}'.toNat])

/-- Source `HealthResponse` of `main.go`. -/
structure HealthResponse where
  Status : Str
  Timestamp : Str
  Version : Str
  Uptime : Str

/-- Source `InfoResponse` of `main.go`. -/
structure InfoResponse where
  Application : Str
  Version : Str
  GoVersion : Str
  BuildTime : Str
  Environment : Str

/-- Library `json.Marshal` of a `HealthResponse`: the fields in declaration order
under the names of their `json` tags. -/
def HealthResponse.Marshal (r : HealthResponse) : Str :=
  encodeObject [(utf8 "status", r.Status), (utf8 "timestamp", r.Timestamp),
    (utf8 "version", r.Version), (utf8 "uptime", r.Uptime)]

/-- Library `json.Marshal` of an `InfoResponse`. -/
def InfoResponse.Marshal (r : InfoResponse) : Str :=
  encodeObject [(utf8 "application", r.Application), (utf8 "version", r.Version),
    (utf8 "go_version", r.GoVersion), (utf8 "build_time", r.BuildTime),
    (utf8 "environment", r.Environment)]

/-- Order in which `encoding/json` writes the keys of a map: sorted as strings,
byte by byte. -/
def keyLE (a b : Str × Str) : Prop := ¬ b.1 < a.1

instance : DecidableRel keyLE := fun a b => by unfold keyLE; infer_instance

/-- Library `json.Marshal` of a `map[string]string` given by its entries. -/
def MarshalMap (m : List (Str × Str)) : Str :=
  encodeObject (m.insertionSort keyLE)

/-- Library `json.NewEncoder(w).Encode(v)` for a value whose marshalling is
`json`: one `Write` of the text followed by a newline; the error is the one of
that `Write` (marshalling a struct of strings or a map of strings cannot
fail). -/
def Encode (w : ResponseWriter) (json : Str) : ResponseWriter × Option Str :=
  w.Write (json ++ ['\n'.toNat])

/-! ## The handlers of `main.go` -/

/-- Source `healthHandler`. -/
def healthHandler (p : Process) : Handler := fun _r c =>
  let uptime : Int := (c.now : Int) - (p.startTime : Int)
  let response : HealthResponse :=
    { Status := utf8 "OK"
      Timestamp := p.formatRFC3339 c.now
      Version := version
      Uptime := p.durationString uptime }
  let w1 := c.w.SetHeader (utf8 "Content-Type") (utf8 "application/json")
  let w2 := w1.WriteHeader StatusOK
  match Encode w2 response.Marshal with
  | (w3, none) => { c with w := w3 }
  | (w3, some err) =>
    { c with
      log := c.log ++ [utf8 "Error encoding health response: " ++ err]
      w := Error w3 (utf8 "Internal Server Error") StatusInternalServerError }

/-- Source `infoHandler`. -/
def infoHandler (p : Process) : Handler := fun _r c =>
  let response : InfoResponse :=
    { Application := appName
      Version := version
      GoVersion := p.goVersion
      BuildTime := buildTime p
      Environment := environment p }
  let w1 := c.w.SetHeader (utf8 "Content-Type") (utf8 "application/json")
  let w2 := w1.WriteHeader StatusOK
  match Encode w2 response.Marshal with
  | (w3, none) => { c with w := w3 }
  | (w3, some err) =>
    { c with
      log := c.log ++ [utf8 "Error encoding info response: " ++ err]
      w := Error w3 (utf8 "Internal Server Error") StatusInternalServerError }

/-- The map literal `message` of `homeHandler`. -/
def homeMessage : List (Str × Str) :=
  [(utf8 "message", utf8 "Welcome to CICD360! 🚀"),
   (utf8 "description", utf8 "Automated Golang Deployment Pipeline"),
   (utf8 "endpoints", utf8 "/health, /info"),
   (utf8 "version", version)]

/-- Source `homeHandler`. -/
def homeHandler : Handler := fun _r c =>
  let message := homeMessage
  let w1 := c.w.SetHeader (utf8 "Content-Type") (utf8 "application/json")
  let w2 := w1.WriteHeader StatusOK
  match Encode w2 (MarshalMap message) with
  | (w3, none) => { c with w := w3 }
  | (w3, some err) =>
    { c with
      log := c.log ++ [utf8 "Error encoding home response: " ++ err]
      w := Error w3 (utf8 "Internal Server Error") StatusInternalServerError }

/-! ## The middlewares of `main.go` -/

/-- The line `log.Printf("%s %s %s %v", r.Method, r.RequestURI, r.RemoteAddr,
time.Since(start))` prints. -/
def requestLine (p : Process) (r : Request) (elapsed : Int) : Str :=
  r.Method ++ ' '.toNat :: (r.RequestURI ++ ' '.toNat ::
    (r.RemoteAddr ++ ' '.toNat :: p.durationString elapsed))

/-- Source `loggingMiddleware`. -/
def loggingMiddleware (p : Process) (next : Handler) : Handler := fun r c =>
  let start := c.now
  let c1 := next r c
  { c1 with log := c1.log ++ [requestLine p r ((c1.now : Int) - (start : Int))] }

/-- Source `corsMiddleware`. -/
def corsMiddleware (next : Handler) : Handler := fun r c =>
  let w1 := c.w.SetHeader (utf8 "Access-Control-Allow-Origin") (utf8 "*")
  let w2 := w1.SetHeader (utf8 "Access-Control-Allow-Methods")
    (utf8 "GET, POST, PUT, DELETE, OPTIONS")
  let w3 := w2.SetHeader (utf8 "Access-Control-Allow-Headers")
    (utf8 "Content-Type, Authorization")
  if r.Method = utf8 "OPTIONS" then
    { c with w := w3.WriteHeader StatusOK }
  else
    next r { c with w := w3 }

/-! ## `encoding/json`: what `json.Unmarshal` reads

The tests decode the bodies with `json.Unmarshal`.  The model below is the
scanner and `unquote` of `encoding/json` for objects whose values are strings;
on any other input it answers `none`. -/

/-- Where the scanner stands inside a string literal: between characters, after
a backslash, after `\u` and `k` hexadecimal digits of value `v`, or inside a
rune already decoded with `n` of its bytes still to come. -/
inductive Sub
  | normal
  | esc
  | hex (k : Nat) (v : Nat)
  | skip (n : Nat)
  deriving DecidableEq

/-- Value of a hexadecimal digit. -/
def hexVal (b : Nat) : Option Nat :=
  if '0'.toNat ≤ b ∧ b ≤ '9'.toNat then some (b - '0'.toNat)
  else if 'a'.toNat ≤ b ∧ b ≤ 'f'.toNat then some (b - 'a'.toNat + 10)
  else if 'A'.toNat ≤ b ∧ b ≤ 'F'.toNat then some (b - 'A'.toNat + 10)
  else none

/-- After a rune of `size` bytes was decoded at its first byte. -/
def Sub.after (size : Nat) : Sub := if size ≤ 1 then .normal else .skip (size - 1)

/-- One byte inside a string literal (`unquote` of `encoding/json`), with the
bytes that follow it: the next position and the bytes decoded by this step.
Raw control characters and unknown escapes are errors; bytes that are not ASCII
are decoded as a rune and encoded again, which turns every byte that does not
begin a well-formed encoding into U+FFFD; an escaped surrogate is outside the
fragment modelled. -/
def unquoteStep : Sub → Nat → Str → Option (Sub × Str)
  | .normal, b, rest =>
    if b = '\\'.toNat then some (.esc, [])
    else if b < 0x20 then none
    else if b < 0x80 then some (.normal, [b])
    else
      let (c, size) := DecodeRune (b :: rest)
      some (Sub.after size, EncodeRune c)
  | .skip n, _, _ => some (Sub.after n, [])
  | .esc, b, _ =>
    if b = '"'.toNat ∨ b = '\\'.toNat ∨ b = '/'.toNat then some (.normal, [b])
    else if b = 'b'.toNat then some (.normal, [0x08])
    else if b = 'f'.toNat then some (.normal, [0x0C])
    else if b = 'n'.toNat then some (.normal, ['\n'.toNat])
    else if b = 'r'.toNat then some (.normal, ['\r'.toNat])
    else if b = 't'.toNat then some (.normal, ['\t'.toNat])
    else if b = 'u'.toNat then some (.hex 0 0, [])
    else none
  | .hex k v, b, _ =>
    match hexVal b with
    | none => none
    | some d =>
      let v1 := 16 * v + d
      if k < 3 then some (.hex (k + 1) v1, [])
      else if 0xD800 ≤ v1 ∧ v1 < 0xE000 then none
      else some (.normal, EncodeRune v1)

/-- Appends the bytes a step decoded. -/
def push (acc : Str) : Str → Str
  | [] => acc
  | b :: bs => acc ++ b :: bs

/-- JSON white space. -/
def isSpace (b : Nat) : Bool :=
  b = ' '.toNat ∨ b = '\t'.toNat ∨ b = '\r'.toNat ∨ b = '\n'.toNat

/-- Position of the scanner in an object, with the members read so far:
before the opening brace; after it; inside a string literal (a key when
`pending` is `none`, else the value of that key); after a key; after the colon;
after a value; after a comma; after the closing brace. -/
inductive Scan
  | start
  | first (out : List (Str × Str))
  | str (out : List (Str × Str)) (pending : Option Str) (acc : Str) (sub : Sub)
  | colon (out : List (Str × Str)) (key : Str)
  | value (out : List (Str × Str)) (key : Str)
  | more (out : List (Str × Str))
  | comma (out : List (Str × Str))
  | done (out : List (Str × Str))

/-- One byte of input, with the bytes that follow it. -/
def Scan.step : Scan → Nat → Str → Option Scan
  | .str out pending acc sub, b, rest =>
    if sub = .normal ∧ b = '"'.toNat then
      match pending with
      | none => some (.colon out acc)
      | some k => some (.more (out ++ [(k, acc)]))
    else
      match unquoteStep sub b rest with
      | none => none
      | some (sub1, emitted) => some (.str out pending (push acc emitted) sub1)
  | .start, b, _ =>
    if isSpace b then some .start
    else if b = '{'.toNat then some (.first [])
    else none
  | .first out, b, _ =>
    if isSpace b then some (.first out)
    else if b = '"'.toNat then some (.str out none [] .normal)
    else if b = '}'.toNat then some (.done out)
    else none
  | .colon out k, b, _ =>
    if isSpace b then some (.colon out k)
    else if b = ':'.toNat then some (.value out k)
    else none
  | .value out k, b, _ =>
    if isSpace b then some (.value out k)
    else if b = '"'.toNat then some (.str out (some k) [] .normal)
    else none
  | .more out, b, _ =>
    if isSpace b then some (.more out)
    else if b = ','.toNat then some (.comma out)
    else if b = '}'.toNat then some (.done out)
    else none
  | .comma out, b, _ =>
    if isSpace b then some (.comma out)
    else if b = '"'.toNat then some (.str out none [] .normal)
    else none
  | .done out, b, _ =>
    if isSpace b then some (.done out) else none

/-- The scanner run over a text. -/
def Scan.run : Scan → Str → Option Scan
  | st, [] => some st
  | st, b :: rest =>
    match st.step b rest with
    | none => none
    | some st1 => st1.run rest

/-- The members of the JSON object a text consists of, in the order read. -/
def decodeObject (data : Str) : Option (List (Str × Str)) :=
  match Scan.start.run data with
  | some (.done out) => some out
  | _ => none

/-- Stores one member in a `HealthResponse`.  A key that is not one of the four
tag names is outside the fragment modelled. -/
def HealthResponse.assign (r : HealthResponse) (kv : Str × Str) : Option HealthResponse :=
  if kv.1 = utf8 "status" then some { r with Status := kv.2 }
  else if kv.1 = utf8 "timestamp" then some { r with Timestamp := kv.2 }
  else if kv.1 = utf8 "version" then some { r with Version := kv.2 }
  else if kv.1 = utf8 "uptime" then some { r with Uptime := kv.2 }
  else none

/-- Stores one member in an `InfoResponse`. -/
def InfoResponse.assign (r : InfoResponse) (kv : Str × Str) : Option InfoResponse :=
  if kv.1 = utf8 "application" then some { r with Application := kv.2 }
  else if kv.1 = utf8 "version" then some { r with Version := kv.2 }
  else if kv.1 = utf8 "go_version" then some { r with GoVersion := kv.2 }
  else if kv.1 = utf8 "build_time" then some { r with BuildTime := kv.2 }
  else if kv.1 = utf8 "environment" then some { r with Environment := kv.2 }
  else none

/-- Stores the members one after the other, a later one over an earlier one. -/
def assignAll {α : Type} (assign : α → Str × Str → Option α) :
    α → List (Str × Str) → Option α
  | r, [] => some r
  | r, kv :: rest =>
    match assign r kv with
    | none => none
    | some r1 => assignAll assign r1 rest

/-- Library `json.Unmarshal(data, &response)` for `var response HealthResponse`. -/
def UnmarshalHealth (data : Str) : Option HealthResponse :=
  match decodeObject data with
  | none => none
  | some members => assignAll HealthResponse.assign ⟨[], [], [], []⟩ members

/-- Library `json.Unmarshal(data, &response)` for `var response InfoResponse`. -/
def UnmarshalInfo (data : Str) : Option InfoResponse :=
  match decodeObject data with
  | none => none
  | some members => assignAll InfoResponse.assign ⟨[], [], [], [], []⟩ members

/-- Assignment `m[key] = value` on a map given by its entries. -/
def mapSet (m : List (Str × Str)) (key value : Str) : List (Str × Str) :=
  m.filter (fun e => !(e.1 == key)) ++ [(key, value)]

/-- Library `json.Unmarshal(data, &response)` for `var response
map[string]string`: the entries of the resulting map. -/
def UnmarshalMap (data : Str) : Option (List (Str × Str)) :=
  match decodeObject data with
  | none => none
  | some members => some (members.foldl (fun m kv => mapSet m kv.1 kv.2) [])

/-! ## `net/url` and `net/http`: `ServeMux` (the router of Go 1.22 and later)

The router, after the code of `net/http`: it reads the escaped path of the
request, cleans it (except for `CONNECT`), and matches it segment by segment,
each segment unescaped, against the registered patterns.  A pattern that ends
in a slash names a subtree; the most specific pattern wins; a pattern without
a method matches every method.  The patterns of the program have no method, no
host and no wildcard, so these are left out. -/

/-- Library `ishex` of `net/url`. -/
def ishex (b : Nat) : Bool := (hexVal b).isSome

/-- Library `unhex` of `net/url`. -/
def unhex (b : Nat) : Nat := (hexVal b).getD 0

/-- The check of `unescape` of `net/url` in path mode: every percent sign is
followed by two hexadecimal digits. -/
def validEscapes : Str → Bool
  | [] => true
  | b :: rest =>
    if b = '%'.toNat then
      match rest with
      | h1 :: h2 :: rest2 => ishex h1 && ishex h2 && validEscapes rest2
      | _ => false
    else validEscapes rest

/-- The decoding of `unescape` of `net/url` for a text that passed the check:
every escape replaced by its byte. -/
def unescape : Str → Str
  | [] => []
  | [b] => [b]
  | [b, h1] => [b, h1]
  | b :: h1 :: h2 :: rest =>
    if b = '%'.toNat then (unhex h1 * 16 + unhex h2) :: unescape rest
    else b :: unescape (h1 :: h2 :: rest)

/-- Library `pathUnescape` of `net/http`: `url.PathUnescape`, or the text itself
when it is not validly escaped. -/
def pathUnescape (s : Str) : Str := if validEscapes s then unescape s else s

/-- The segments of a path after its first byte, as repeated `firstSegment`
yields them: the pieces between slashes, unescaped, and `/` for a trailing
slash (`cur` is the piece being read). -/
def segmentsFrom : Str → Str → List Str
  | cur, [] => [pathUnescape cur]
  | cur, b :: rest =>
    if b = '/'.toNat then
      pathUnescape cur :: (if rest = [] then [utf8 "/"] else segmentsFrom [] rest)
    else segmentsFrom (cur ++ [b]) rest

/-- The segments `matchPath` walks through for a path: none for the empty path,
`/` for the path `/`. -/
def pathSegments (path : Str) : List Str :=
  if path = [] then []
  else if path = utf8 "/" then [utf8 "/"]
  else segmentsFrom [] path.tail

/-- The elements of a path: the pieces between slashes (`cur` is the piece
being read). -/
def splitElems : Str → Str → List Str
  | cur, [] => [cur]
  | cur, b :: rest =>
    if b = '/'.toNat then cur :: splitElems [] rest else splitElems (cur ++ [b]) rest

/-- The elements `path.Clean` keeps for a rooted path, last one first: empty
elements and `.` are dropped, `..` removes the element before it, and is
dropped at the root. -/
def cleanElems : List Str → List Str → List Str
  | kept, [] => kept
  | kept, e :: es =>
    if e = [] ∨ e = utf8 "." then cleanElems kept es
    else if e = utf8 ".." then cleanElems kept.tail es
    else cleanElems (e :: kept) es

/-- Writes elements one after the other, a slash before each. -/
def joinElems : List Str → Str
  | [] => []
  | e :: es => '/'.toNat :: (e ++ joinElems es)

/-- Library `path.Clean` on a rooted path. -/
def Clean (p : Str) : Str :=
  match joinElems (cleanElems [] (splitElems [] p)).reverse with
  | [] => utf8 "/"
  | np => np

/-- Library `cleanPath` of `net/http`: the canonical form of a request path,
which keeps a trailing slash. -/
def cleanPath (p : Str) : Str :=
  if p = [] then utf8 "/"
  else
    let p1 := if p.head? ≠ some '/'.toNat then '/'.toNat :: p else p
    let np := Clean p1
    if p1.getLast? = some '/'.toNat ∧ np ≠ utf8 "/" then
      if p1.length = np.length + 1 ∧ np.isPrefixOf p1 then p1 else np ++ utf8 "/"
    else np

/-- A registered pattern without method, host or wildcard: its text, its
literal segments, whether it ends in a slash (`multi`: the segment list of
`net/http` then ends with an anonymous multi wildcard), and its handler. -/
structure pattern where
  str : Str
  segments : List Str
  multi : Bool
  handler : Handler

/-- The literal segments of a pattern after its first slash, unescaped, and
whether the pattern ends in a slash (`cur` is the piece being read). -/
def patternSegments : Str → Str → List Str × Bool
  | cur, [] => ([pathUnescape cur], false)
  | cur, b :: rest =>
    if b = '/'.toNat then
      if rest = [] then ([pathUnescape cur], true)
      else ((pathUnescape cur) :: (patternSegments [] rest).1, (patternSegments [] rest).2)
    else patternSegments (cur ++ [b]) rest

/-- Library `parsePattern` of `net/http` for a pattern that begins with a slash
and has no blank and no brace; other patterns are outside the fragment
modelled. -/
def parsePattern (s : Str) : Option (List Str × Bool) :=
  match s with
  | [] => none
  | b :: rest =>
    if b ≠ '/'.toNat ∨ ' '.toNat ∈ s ∨ '\t'.toNat ∈ s ∨ '{'.toNat ∈ s then none
    else if rest = [] then some ([], true)
    else some (patternSegments [] rest)

/-- The registrations of a `ServeMux`, in the order made. -/
structure ServeMux where
  patterns : List pattern

/-- Library `http.NewServeMux()`. -/
def NewServeMux : ServeMux := ⟨[]⟩

/-- Library `mux.HandleFunc(pattern, handler)` for a pattern that does not
conflict with a registered one (Go panics on one that does, or that does not
parse). -/
def ServeMux.HandleFunc (mux : ServeMux) (pat : Str) (handler : Handler) : ServeMux :=
  match parsePattern pat with
  | none => mux
  | some (segments, multi) =>
    { patterns := mux.patterns ++ [⟨pat, segments, multi, handler⟩] }

/-- Library `routingNode.matchPath`, the node given by the literal segments `pre`
that lead to it: at the end of the path the pattern set at the node; else the
match below the child for the next segment, and failing that the subtree
pattern at the node. -/
def matchPath (pats : List pattern) : List Str → List Str → Option pattern
  | pre, [] => pats.find? (fun p => p.segments == pre && !p.multi)
  | pre, seg :: rest =>
    match matchPath pats (pre ++ [seg]) rest with
    | some p => some p
    | none => pats.find? (fun p => p.segments == pre && p.multi)

/-- Library `mux.tree.match(host, method, path)`. -/
def ServeMux.matchPattern (mux : ServeMux) (path : Str) : Option pattern :=
  matchPath mux.patterns [] (pathSegments path)

/-- Library `exactMatch` of `net/http`: the match is not one of a subtree pattern
with a path below it. -/
def exactMatch (n : Option pattern) (path : Str) : Bool :=
  match n with
  | none => false
  | some p =>
    if !p.multi then true
    else if path.length > 0 ∧ path.getLast? ≠ some '/'.toNat then false
    else p.segments.length + 1 == path.count '/'.toNat

/-- Library `mux.matchOrRedirect(host, method, path, u)`, `u` given by its path:
the match, or the path to redirect to when only the path with a slash added
has an exact match. -/
def ServeMux.matchOrRedirect (mux : ServeMux) (path : Str) (u : Option Str) :
    Option pattern × Option Str :=
  let n := mux.matchPattern path
  if exactMatch n path = false ∧ u.isSome ∧ path.getLast? ≠ some '/'.toNat then
    if exactMatch (mux.matchPattern (path ++ utf8 "/")) (path ++ utf8 "/") then
      (none, u.map (fun upath => cleanPath upath ++ utf8 "/"))
    else (n, none)
  else (n, none)

/-- What the router decides for a request: a registered handler with its
pattern, a redirect to a path, or not found. -/
inductive Target
  | handler (h : Handler) (pat : Str)
  | redirect (path : Str)
  | notFound

/-- Library `mux.findHandler(r)`: `CONNECT` requests are matched as they are;
for every other method the escaped path is cleaned, and a path that is not
clean is answered with a redirect to its clean form. -/
def ServeMux.findHandler (mux : ServeMux) (r : Request) : Target :=
  let escapedPath := r.EscapedPath
  if r.Method = utf8 "CONNECT" then
    match (mux.matchOrRedirect escapedPath (some r.Path)).2 with
    | some u => .redirect u
    | none =>
      match (mux.matchOrRedirect escapedPath none).1 with
      | some p => .handler p.handler p.str
      | none => .notFound
  else
    let path := cleanPath escapedPath
    match mux.matchOrRedirect path (some r.Path) with
    | (_, some u) => .redirect u
    | (n, none) =>
      if path ≠ escapedPath then .redirect path
      else
        match n with
        | some p => .handler p.handler p.str
        | none => .notFound

/-- Library `http.StatusBadRequest`. -/
def StatusBadRequest : Nat := 400

/-- Library `http.StatusNotFound`. -/
def StatusNotFound : Nat := 404

/-- Library `http.NotFound`. -/
def NotFound : Handler := fun _r c =>
  { c with w := Error c.w (utf8 "404 page not found") StatusNotFound }

/-- Library `mux.ServeHTTP(w, r)`.  `RedirectHandler path` is the handler the
library answers a redirect to `path` with; the program does not depend on its
response. -/
def ServeMux.ServeHTTP (mux : ServeMux) (RedirectHandler : Str → Handler) : Handler :=
  fun r c =>
    if r.RequestURI = utf8 "*" then
      let w1 := if r.ProtoAtLeast 1 1 then c.w.SetHeader (utf8 "Connection") (utf8 "close")
                else c.w
      { c with w := w1.WriteHeader StatusBadRequest }
    else
      match mux.findHandler r with
      | .handler h _ => h r c
      | .redirect path => RedirectHandler path r c
      | .notFound => NotFound r c

/-! ## `main` -/

/-- Source `mux` of `main`, with its three registrations. -/
def main.mux (p : Process) : ServeMux :=
  ((NewServeMux.HandleFunc (utf8 "/") homeHandler).HandleFunc
    (utf8 "/health") (healthHandler p)).HandleFunc (utf8 "/info") (infoHandler p)

/-- Source `handler` of `main`: `loggingMiddleware(corsMiddleware(mux))`. -/
def main.handler (p : Process) (RedirectHandler : Str → Handler) : Handler :=
  loggingMiddleware p (corsMiddleware ((main.mux p).ServeHTTP RedirectHandler))

/-- Source `port` of `main`. -/
def main.port (env : List (Str × Str)) : Str := getEnv env (utf8 "PORT") (utf8 "8080")

/-! ## Vocabulary of the statements -/

/-- The three headers `corsMiddleware` sets, with their values, as the client
receives them. -/
def HasCorsHeaders (w : ResponseWriter) : Prop :=
  w.SentHeader.Get (utf8 "Access-Control-Allow-Origin") = (utf8 "*") ∧
  w.SentHeader.Get (utf8 "Access-Control-Allow-Methods") =
    (utf8 "GET, POST, PUT, DELETE, OPTIONS") ∧
  w.SentHeader.Get (utf8 "Access-Control-Allow-Headers") =
    (utf8 "Content-Type, Authorization")

instance (w : ResponseWriter) : Decidable (HasCorsHeaders w) := by
  unfold HasCorsHeaders; infer_instance

/-- The names of the three headers `corsMiddleware` sets. -/
def corsKeys : List Str :=
  [(utf8 "Access-Control-Allow-Origin"), (utf8 "Access-Control-Allow-Methods"),
   (utf8 "Access-Control-Allow-Headers")]

/-- The handler of `TestCorsMiddleware` and `TestLoggingMiddleware`: writes
status 200 and the body `test`. -/
def testHandler : Handler := fun _r c =>
  { c with w := ((c.w.WriteHeader StatusOK).Write (utf8 "test")).1 }

/-- A handler that removes a header it was handed before it answers. -/
def stripOrigin : Handler := fun _r c =>
  { c with w := (c.w.DelHeader (utf8 "Access-Control-Allow-Origin")).WriteHeader StatusOK }

/-- A request as `http.NewRequest(method, path, nil)` builds it for a path
without percent-escapes and without bytes that need one. -/
def NewRequest (method path : Str) : Request :=
  { Method := method, Path := path, EscapedPath := path, RequestURI := [],
    RemoteAddr := [], ProtoMajor := 1, ProtoMinor := 1 }

/-- A process started with the given environment; the formats of times and
durations are placeholders. -/
def sampleProcess (env : List (Str × Str)) : Process :=
  { env := env, startTime := 0, buildNow := 0, goVersion := utf8 "go1.24",
    formatRFC3339 := fun _ => utf8 "2025-01-01T00:00:00Z",
    durationString := fun _ => utf8 "1s" }

/-- The writer `corsMiddleware` hands on: the incoming one with three headers set. -/
def corsWriter (w : ResponseWriter) : ResponseWriter :=
  ((w.SetHeader (utf8 "Access-Control-Allow-Origin") (utf8 "*")).SetHeader
    (utf8 "Access-Control-Allow-Methods") (utf8 "GET, POST, PUT, DELETE, OPTIONS")).SetHeader
    (utf8 "Access-Control-Allow-Headers") (utf8 "Content-Type, Authorization")

/-- The common body of the three handlers: content type, status 200, the encoded
value, and on an encoding error the log line and `http.Error`. -/
def respondJSON (c : Ctx) (json : Str) (logText : Str) : Ctx :=
  let w1 := c.w.SetHeader (utf8 "Content-Type") (utf8 "application/json")
  let w2 := w1.WriteHeader StatusOK
  match Encode w2 json with
  | (w3, none) => { c with w := w3 }
  | (w3, some err) =>
    { c with
      log := c.log ++ [logText ++ err]
      w := Error w3 (utf8 "Internal Server Error") StatusInternalServerError }

/-- The loop of `unquote` of `encoding/json` over bytes without escapes: an ASCII
byte is kept, any other is decoded as a rune and encoded again (`skip` counts
the bytes of that rune still to step over). -/
def coerceFrom : Nat → Str → Str
  | _, [] => []
  | skip + 1, _ :: rest => coerceFrom skip rest
  | 0, b :: rest =>
    if b < 0x80 then b :: coerceFrom 0 rest
    else EncodeRune (DecodeRune (b :: rest)).1 ++ coerceFrom ((DecodeRune (b :: rest)).2 - 1) rest

/-- A string coerced to well-formed UTF-8: every byte that does not begin a
well-formed encoding replaced by U+FFFD. -/
def ToValid (s : Str) : Str := coerceFrom 0 s

/-- What `appendString` writes for one rune of a well-formed string. -/
def escapeRune (r : Nat) : Str :=
  if r < 0x80 then escapeASCII r
  else if r = 0x2028 ∨ r = 0x2029 then utf8 "\\u202" ++ [hex (r % 16)]
  else EncodeRune r

/-- A member as `json.Unmarshal` reads it back: key and value coerced to
well-formed UTF-8. -/
def coerceMember (kv : Str × Str) : Str × Str := (ToValid kv.1, ToValid kv.2)

/-- The request `http.NewRequest("GET", "%2Fhealth", nil)` builds: the path is
`/health`, its escaped form is the one given. -/
def escapedSlashRequest : Request :=
  { Method := utf8 "GET", Path := utf8 "/health", EscapedPath := utf8 "%2Fhealth",
    RequestURI := [], RemoteAddr := [], ProtoMajor := 1, ProtoMinor := 1 }

/-- A request value for the path `/health` whose `RequestURI` field holds the
asterisk form. -/
def asteriskRequest : Request :=
  { Method := utf8 "GET", Path := utf8 "/health", EscapedPath := utf8 "/health",
    RequestURI := utf8 "*", RemoteAddr := [], ProtoMajor := 1, ProtoMinor := 1 }

/-- A stand-in for the handler the library answers a redirect with: the
location and status 307. -/
def sampleRedirect (path : Str) : Handler := fun _r c =>
  { c with w := (c.w.SetHeader (utf8 "Location") path).WriteHeader 307 }

/-! ## Lemmas: UTF-8 -/

theorem first_two (b : Nat) (h : 0xC2 ≤ b ∧ b ≤ 0xDF) : first b = some (2, 0x80, 0xBF) := by
  unfold first
  rw [if_neg (show ¬ b < 0xC2 by omega), if_pos (show b ≤ 0xDF by omega)]

theorem first_three (b : Nat) (h : 0xE0 ≤ b ∧ b ≤ 0xEF) :
    first b = some (3, if b = 0xE0 then 0xA0 else 0x80, if b = 0xED then 0x9F else 0xBF) := by
  unfold first
  rw [if_neg (show ¬ b < 0xC2 by omega), if_neg (show ¬ b ≤ 0xDF by omega)]
  split_ifs <;> first | rfl | omega

theorem first_four (b : Nat) (h : 0xF0 ≤ b ∧ b ≤ 0xF4) :
    first b = some (4, if b = 0xF0 then 0x90 else 0x80, if b = 0xF4 then 0x8F else 0xBF) := by
  unfold first
  rw [if_neg (show ¬ b < 0xC2 by omega), if_neg (show ¬ b ≤ 0xDF by omega),
    if_neg (show ¬ b = 0xE0 by omega), if_neg (show ¬ b ≤ 0xEC by omega),
    if_neg (show ¬ b = 0xED by omega), if_neg (show ¬ b ≤ 0xEF by omega)]
  split_ifs <;> first | rfl | omega

theorem DecodeRune_two (p0 b1 : Nat) (rest : Str) (h0 : 0xC2 ≤ p0 ∧ p0 ≤ 0xDF)
    (h1 : 0x80 ≤ b1 ∧ b1 ≤ 0xBF) :
    DecodeRune (p0 :: b1 :: rest) = (p0 % 32 * 64 + b1 % 64, 2) := by
  rw [DecodeRune]
  rw [if_neg (show ¬ p0 < 0x80 by omega), first_two p0 h0]
  simp only
  rw [if_neg (by simp), if_neg (show ¬ (b1 < 0x80 ∨ 0xBF < b1) by omega), if_pos (le_refl 2)]

theorem DecodeRune_three (p0 b1 b2 lo hi : Nat) (rest : Str)
    (hf : first p0 = some (3, lo, hi)) (h0 : 0x80 ≤ p0)
    (h1 : lo ≤ b1 ∧ b1 ≤ hi) (h2 : 0x80 ≤ b2 ∧ b2 ≤ 0xBF) :
    DecodeRune (p0 :: b1 :: b2 :: rest) = (p0 % 16 * 4096 + b1 % 64 * 64 + b2 % 64, 3) := by
  rw [DecodeRune]
  rw [if_neg (show ¬ p0 < 0x80 by omega), hf]
  simp only
  rw [if_neg (by simp), if_neg (show ¬ (b1 < lo ∨ hi < b1) by omega),
    if_neg (show ¬ (3 ≤ 2) by omega), if_neg (show ¬ (b2 < 0x80 ∨ 0xBF < b2) by omega),
    if_pos (le_refl 3)]

theorem DecodeRune_four (p0 b1 b2 b3 lo hi : Nat) (rest : Str)
    (hf : first p0 = some (4, lo, hi)) (h0 : 0x80 ≤ p0)
    (h1 : lo ≤ b1 ∧ b1 ≤ hi) (h2 : 0x80 ≤ b2 ∧ b2 ≤ 0xBF) (h3 : 0x80 ≤ b3 ∧ b3 ≤ 0xBF) :
    DecodeRune (p0 :: b1 :: b2 :: b3 :: rest) =
      (p0 % 8 * 262144 + b1 % 64 * 4096 + b2 % 64 * 64 + b3 % 64, 4) := by
  rw [DecodeRune]
  rw [if_neg (show ¬ p0 < 0x80 by omega), hf]
  simp only
  rw [if_neg (by simp), if_neg (show ¬ (b1 < lo ∨ hi < b1) by omega),
    if_neg (show ¬ (4 ≤ 2) by omega), if_neg (show ¬ (b2 < 0x80 ∨ 0xBF < b2) by omega),
    if_neg (show ¬ (4 ≤ 3) by omega), if_neg (show ¬ (b3 < 0x80 ∨ 0xBF < b3) by omega)]

/-- Decoding what `EncodeRune` wrote for a Unicode scalar value gives the value
back, whatever follows. -/
theorem DecodeRune_EncodeRune (r : Nat) (hr : r < 0xD800 ∨ (0xDFFF < r ∧ r < 0x110000))
    (rest : Str) : DecodeRune (EncodeRune r ++ rest) = (r, (EncodeRune r).length) := by
  unfold EncodeRune
  split_ifs with h1 h2 h3 h4
  · simp [DecodeRune, h1]
  · rw [List.cons_append, List.cons_append, List.nil_append,
      DecodeRune_two _ _ _ (by omega) (by omega)]
    simp only [List.length_cons, List.length_nil, Prod.mk.injEq, and_true]
    omega
  · omega
  · rw [List.cons_append, List.cons_append, List.cons_append, List.nil_append,
      DecodeRune_three _ _ _ _ _ _ (first_three _ (by omega)) (by omega)
        (by split_ifs <;> omega) (by omega)]
    simp only [List.length_cons, List.length_nil, Prod.mk.injEq, and_true]
    omega
  · rw [List.cons_append, List.cons_append, List.cons_append, List.cons_append,
      List.nil_append,
      DecodeRune_four _ _ _ _ _ _ _ (first_four _ (by omega)) (by omega)
        (by split_ifs <;> omega) (by omega) (by omega)]
    simp only [List.length_cons, List.length_nil, Prod.mk.injEq, and_true]
    omega

/-- The encoding of a rune that is not ASCII: a lead byte and at least one
more byte. -/
theorem EncodeRune_multi (r : Nat) (h : 0x80 ≤ r) :
    ∃ b0 b1 tail, EncodeRune r = b0 :: b1 :: tail ∧ 0xC2 ≤ b0 := by
  unfold EncodeRune
  split_ifs with h1 h2 h3 h4
  · omega
  · exact ⟨_, _, _, rfl, by omega⟩
  · exact ⟨_, _, _, rfl, by omega⟩
  · exact ⟨_, _, _, rfl, by omega⟩
  · exact ⟨_, _, _, rfl, by omega⟩

theorem Char_scalar (c : Char) : c.toNat < 0xD800 ∨ (0xDFFF < c.toNat ∧ c.toNat < 0x110000) := by
  have h := c.valid
  simp only [UInt32.isValidChar, Nat.isValidChar] at h
  exact h

theorem first_spec (b sz lo hi : Nat) (h : first b = some (sz, lo, hi)) :
    (sz = 2 ∧ 0xC2 ≤ b ∧ b ≤ 0xDF ∧ lo = 0x80 ∧ hi = 0xBF) ∨
    (sz = 3 ∧ 0xE0 ≤ b ∧ b ≤ 0xEF ∧ lo = (if b = 0xE0 then 0xA0 else 0x80) ∧
      hi = (if b = 0xED then 0x9F else 0xBF)) ∨
    (sz = 4 ∧ 0xF0 ≤ b ∧ b ≤ 0xF4 ∧ lo = (if b = 0xF0 then 0x90 else 0x80) ∧
      hi = (if b = 0xF4 then 0x8F else 0xBF)) := by
  unfold first at h
  split_ifs at h <;> simp only [Option.some.injEq, Prod.mk.injEq] at h <;>
    first
    | contradiction
    | (obtain ⟨rfl, rfl, rfl⟩ := h
       first
       | (left; omega)
       | (right; left; refine ⟨rfl, ?_, ?_, ?_, ?_⟩ <;> (try split_ifs) <;> omega)
       | (right; right; refine ⟨rfl, ?_, ?_, ?_, ?_⟩ <;> (try split_ifs) <;> omega))


theorem DecodeRune_bad (b : Nat) (rest : Str) (hb : 0x80 ≤ b) (hf : first b = none) :
    DecodeRune (b :: rest) = (RuneError, 1) := by
  rw [DecodeRune, if_neg (show ¬ b < 0x80 by omega), hf]

theorem DecodeRune_short (b sz lo hi : Nat) (hb : 0x80 ≤ b)
    (hf : first b = some (sz, lo, hi)) (hsz : 2 ≤ sz) :
    DecodeRune [b] = (RuneError, 1) := by
  rw [DecodeRune, if_neg (show ¬ b < 0x80 by omega), hf]
  simp only [List.length_cons, List.length_nil]
  rw [if_pos (by omega)]

theorem DecodeRune_bad1 (b b1 sz lo hi : Nat) (rest : Str) (hb : 0x80 ≤ b)
    (hf : first b = some (sz, lo, hi)) (h1 : b1 < lo ∨ hi < b1) :
    DecodeRune (b :: b1 :: rest) = (RuneError, 1) := by
  rw [DecodeRune, if_neg (show ¬ b < 0x80 by omega), hf]
  simp only
  split_ifs <;> rfl

theorem DecodeRune_short2 (b b1 sz lo hi : Nat) (hb : 0x80 ≤ b)
    (hf : first b = some (sz, lo, hi)) (hsz : 3 ≤ sz) :
    DecodeRune [b, b1] = (RuneError, 1) := by
  rw [DecodeRune, if_neg (show ¬ b < 0x80 by omega), hf]
  simp only [List.length_cons, List.length_nil]
  rw [if_pos (by omega)]

theorem DecodeRune_bad2 (b b1 b2 sz lo hi : Nat) (rest : Str) (hb : 0x80 ≤ b)
    (hf : first b = some (sz, lo, hi)) (hsz : 3 ≤ sz) (h2 : b2 < 0x80 ∨ 0xBF < b2) :
    DecodeRune (b :: b1 :: b2 :: rest) = (RuneError, 1) := by
  rw [DecodeRune, if_neg (show ¬ b < 0x80 by omega), hf]
  simp only
  rw [if_neg (show ¬ sz ≤ 2 by omega), if_pos h2]
  split_ifs <;> rfl

theorem DecodeRune_short3 (b b1 b2 sz lo hi : Nat) (hb : 0x80 ≤ b)
    (hf : first b = some (sz, lo, hi)) (hsz : 4 ≤ sz) :
    DecodeRune [b, b1, b2] = (RuneError, 1) := by
  rw [DecodeRune, if_neg (show ¬ b < 0x80 by omega), hf]
  simp only [List.length_cons, List.length_nil]
  rw [if_pos (by omega)]

theorem DecodeRune_bad3 (b b1 b2 b3 sz lo hi : Nat) (rest : Str) (hb : 0x80 ≤ b)
    (hf : first b = some (sz, lo, hi)) (hsz : 4 ≤ sz) (h3 : b3 < 0x80 ∨ 0xBF < b3) :
    DecodeRune (b :: b1 :: b2 :: b3 :: rest) = (RuneError, 1) := by
  rw [DecodeRune, if_neg (show ¬ b < 0x80 by omega), hf]
  simp only
  rw [if_neg (show ¬ sz ≤ 2 by omega), if_neg (show ¬ sz ≤ 3 by omega), if_pos h3]
  split_ifs <;> rfl

/-- A byte that is not ASCII either does not begin a well-formed encoding, or
begins the encoding of a Unicode scalar value that is not ASCII. -/
theorem DecodeRune_cases (b : Nat) (rest : Str) (hb : 0x80 ≤ b) :
    DecodeRune (b :: rest) = (RuneError, 1) ∨
    ∃ c tail rest1, rest = tail ++ rest1 ∧
      (c < 0xD800 ∨ (0xDFFF < c ∧ c < 0x110000)) ∧ 0x80 ≤ c ∧ EncodeRune c = b :: tail := by
  cases hf : first b with
  | none => exact Or.inl (DecodeRune_bad b rest hb hf)
  | some t =>
    obtain ⟨sz, lo, hi⟩ := t
    have hs := first_spec b sz lo hi hf
    cases rest with
    | nil => exact Or.inl (DecodeRune_short b sz lo hi hb hf (by omega))
    | cons b1 rest1 =>
      by_cases h1 : b1 < lo ∨ hi < b1
      · exact Or.inl (DecodeRune_bad1 b b1 sz lo hi rest1 hb hf h1)
      rcases hs with ⟨rfl, h5, h6, rfl, rfl⟩ | hs
      · right
        refine ⟨b % 32 * 64 + b1 % 64, [b1], rest1, rfl, by omega, by omega, ?_⟩
        rw [EncodeRune, if_neg (by omega), if_pos (by omega)]
        congr 1
        · omega
        · congr 1
          omega
      have h3 : 3 ≤ sz := by omega
      cases rest1 with
      | nil => exact Or.inl (DecodeRune_short2 b b1 sz lo hi hb hf h3)
      | cons b2 rest2 =>
        by_cases h2 : b2 < 0x80 ∨ 0xBF < b2
        · exact Or.inl (DecodeRune_bad2 b b1 b2 sz lo hi rest2 hb hf h3 h2)
        rcases hs with ⟨rfl, h5, h6, rfl, rfl⟩ | ⟨rfl, h5, h6, rfl, rfl⟩
        · right
          have r1 : 0x800 ≤ b % 16 * 4096 + b1 % 64 * 64 + b2 % 64 := by
            split_ifs at h1 <;> omega
          have r2 : b % 16 * 4096 + b1 % 64 * 64 + b2 % 64 < 0x10000 := by omega
          have r3 : ¬ (0xD800 ≤ b % 16 * 4096 + b1 % 64 * 64 + b2 % 64 ∧
              b % 16 * 4096 + b1 % 64 * 64 + b2 % 64 ≤ 0xDFFF) := by
            split_ifs at h1 <;> omega
          refine ⟨b % 16 * 4096 + b1 % 64 * 64 + b2 % 64, [b1, b2], rest2, rfl,
            by omega, by omega, ?_⟩
          rw [EncodeRune, if_neg (by omega), if_neg (by omega), if_neg (by omega),
            if_pos (by omega)]
          have q1 : b1 ≤ 0xBF := by split_ifs at h1 <;> omega
          have q2 : 0x80 ≤ b1 := by split_ifs at h1 <;> omega
          congr 1
          · omega
          · congr 1
            · omega
            · congr 1
              omega
        · cases rest2 with
          | nil => exact Or.inl (DecodeRune_short3 b b1 b2 4 _ _ hb hf (le_refl 4))
          | cons b3 rest3 =>
            by_cases h4 : b3 < 0x80 ∨ 0xBF < b3
            · exact Or.inl (DecodeRune_bad3 b b1 b2 b3 4 _ _ rest3 hb hf (le_refl 4) h4)
            right
            have q1 : b1 ≤ 0xBF := by split_ifs at h1 <;> omega
            have q2 : 0x80 ≤ b1 := by split_ifs at h1 <;> omega
            have r1 : 0x10000 ≤ b % 8 * 262144 + b1 % 64 * 4096 + b2 % 64 * 64 + b3 % 64 := by
              split_ifs at h1 <;> omega
            have r2 : b % 8 * 262144 + b1 % 64 * 4096 + b2 % 64 * 64 + b3 % 64 < 0x110000 := by
              split_ifs at h1 <;> omega
            refine ⟨b % 8 * 262144 + b1 % 64 * 4096 + b2 % 64 * 64 + b3 % 64,
              [b1, b2, b3], rest3, rfl, by omega, by omega, ?_⟩
            rw [EncodeRune, if_neg (by omega), if_neg (by omega), if_neg (by omega),
              if_neg (by omega)]
            congr 1
            · omega
            · congr 1
              · omega
              · congr 1
                · omega
                · congr 1
                  omega

/-! ## Lemmas: reading back what the encoder writes -/

theorem escapeFrom_skip (xs : Str) : ∀ (k : Nat) (rest : Str), xs.length = k →
    escapeFrom k (xs ++ rest) = escapeFrom 0 rest := by
  induction xs with
  | nil => intro k rest h; simp at h; subst h; rfl
  | cons x xs ih =>
    intro k rest h
    cases k with
    | zero => simp at h
    | succ k =>
      rw [List.cons_append, escapeFrom]
      exact ih k rest (by simpa using h)

theorem escapeFrom_EncodeRune (r : Nat) (hr : r < 0xD800 ∨ (0xDFFF < r ∧ r < 0x110000))
    (rest : Str) : escapeFrom 0 (EncodeRune r ++ rest) = escapeRune r ++ escapeFrom 0 rest := by
  by_cases h : r < 0x80
  · have e : EncodeRune r = [r] := by simp [EncodeRune, h]
    rw [e, escapeRune, if_pos h, List.cons_append, List.nil_append, escapeFrom, if_pos h]
  · obtain ⟨b0, b1, tail, e, hb⟩ := EncodeRune_multi r (by omega)
    have hd := DecodeRune_EncodeRune r hr rest
    rw [e] at hd
    rw [escapeRune, if_neg h, e, List.cons_append, escapeFrom,
      if_neg (show ¬ b0 < 0x80 by omega)]
    rw [List.cons_append] at hd
    rw [hd]
    simp only [List.length_cons]
    rw [if_neg (by omega)]
    have hs : escapeFrom (tail.length + 1 + 1 - 1) ((b1 :: tail) ++ rest) =
        escapeFrom 0 rest := escapeFrom_skip (b1 :: tail) _ rest (by simp)
    by_cases h2 : r = 0x2028 ∨ r = 0x2029
    · rw [if_pos h2, if_pos h2, hs]
      simp
    · rw [if_neg h2, if_neg h2, hs]
      have : ((b0 :: (b1 :: tail ++ rest)).take (tail.length + 1 + 1)) = b0 :: b1 :: tail := by
        simp
      rw [this]

theorem run_skip (xs : Str) : ∀ (k : Nat) (rest : Str) (out : List (Str × Str))
    (pending : Option Str) (acc : Str), xs.length = k → 1 ≤ k →
    (Scan.str out pending acc (.skip k)).run (xs ++ rest) =
      (Scan.str out pending acc .normal).run rest := by
  induction xs with
  | nil => intro k rest out pending acc h hk; simp at h; omega
  | cons x xs ih =>
    intro k rest out pending acc h hk
    simp only [List.length_cons] at h
    rw [List.cons_append, Scan.run]
    have hstep : (Scan.str out pending acc (.skip k)).step x (xs ++ rest) =
        some (.str out pending acc (Sub.after k)) := by
      simp [Scan.step, unquoteStep, push]
    rw [hstep]
    simp only
    by_cases h1 : k ≤ 1
    · have hx : xs = [] := by
        have : xs.length = 0 := by omega
        exact List.length_eq_zero.mp this
      subst hx
      simp [Sub.after, h1]
    · rw [Sub.after, if_neg h1]
      exact ih (k - 1) rest out pending acc (by omega) (by omega)

theorem run_escapeRune_ascii : ∀ r, r < 128 → ∀ (rest : Str) (out : List (Str × Str))
    (pending : Option Str) (acc : Str),
    (Scan.str out pending acc .normal).run (escapeRune r ++ rest) =
      (Scan.str out pending (acc ++ EncodeRune r) .normal).run rest := by
  intro r hr
  interval_cases r <;> intros <;> rfl

theorem run_escapeRune (r : Nat) (hr : r < 0xD800 ∨ (0xDFFF < r ∧ r < 0x110000))
    (rest : Str) (out : List (Str × Str)) (pending : Option Str) (acc : Str) :
    (Scan.str out pending acc .normal).run (escapeRune r ++ rest) =
      (Scan.str out pending (acc ++ EncodeRune r) .normal).run rest := by
  by_cases h : r < 0x80
  · exact run_escapeRune_ascii r h rest out pending acc
  by_cases h1 : r = 0x2028
  · subst h1; rfl
  by_cases h2 : r = 0x2029
  · subst h2; rfl
  obtain ⟨b0, b1, tail, e, hb⟩ := EncodeRune_multi r (by omega)
  have hd := DecodeRune_EncodeRune r hr rest
  rw [e] at hd
  rw [escapeRune, if_neg h, if_neg (by omega), e, List.cons_append, Scan.run]
  have hstep : (Scan.str out pending acc .normal).step b0 (b1 :: tail ++ rest) =
      some (.str out pending (acc ++ b0 :: b1 :: tail) (.skip (tail.length + 1))) := by
    have q : ¬ b0 = '"'.toNat := by
      have : '"'.toNat = 34 := rfl
      omega
    have bsl : ¬ b0 = '\\'.toNat := by
      have : '\\'.toNat = 92 := rfl
      omega
    rw [List.cons_append] at hd
    simp only [Scan.step, q, and_false, if_false, unquoteStep, bsl,
      show ¬ b0 < 0x20 by omega, show ¬ b0 < 0x80 by omega, hd, e]
    simp [push, Sub.after]
  rw [hstep]
  exact run_skip (b1 :: tail) _ rest out pending _ (by simp) (by omega)

theorem coerceFrom_skip (xs : Str) : ∀ (k : Nat) (rest : Str), xs.length = k →
    coerceFrom k (xs ++ rest) = coerceFrom 0 rest := by
  induction xs with
  | nil => intro k rest h; simp at h; subst h; rfl
  | cons x xs ih =>
    intro k rest h
    cases k with
    | zero => simp at h
    | succ k =>
      rw [List.cons_append, coerceFrom]
      exact ih k rest (by simpa using h)

theorem coerceFrom_EncodeRune (r : Nat) (hr : r < 0xD800 ∨ (0xDFFF < r ∧ r < 0x110000))
    (rest : Str) : coerceFrom 0 (EncodeRune r ++ rest) = EncodeRune r ++ coerceFrom 0 rest := by
  by_cases h : r < 0x80
  · have e : EncodeRune r = [r] := by simp [EncodeRune, h]
    rw [e, List.cons_append, List.nil_append, coerceFrom, if_pos h]
    rfl
  · obtain ⟨b0, b1, tail, e, hb⟩ := EncodeRune_multi r (by omega)
    have hd := DecodeRune_EncodeRune r hr rest
    rw [e] at hd
    rw [e, List.cons_append, coerceFrom, if_neg (show ¬ b0 < 0x80 by omega)]
    rw [List.cons_append] at hd
    rw [hd]
    simp only [List.length_cons]
    rw [e]
    have hs : coerceFrom (tail.length + 1 + 1 - 1) ((b1 :: tail) ++ rest) =
        coerceFrom 0 rest := coerceFrom_skip (b1 :: tail) _ rest (by simp)
    rw [hs]

/-- A well-formed string is left as it is. -/
theorem ToValid_encodeRunes (cs : List Char) : ToValid (encodeRunes cs) = encodeRunes cs := by
  unfold ToValid
  induction cs with
  | nil => rfl
  | cons c cs ih => rw [encodeRunes, coerceFrom_EncodeRune _ (Char_scalar c), ih]

theorem ToValid_of_ValidString (s : Str) (h : ValidString s) : ToValid s = s := by
  obtain ⟨t, rfl⟩ := h
  exact ToValid_encodeRunes t.toList

theorem run_ufffd (rest : Str) (out : List (Str × Str)) (pending : Option Str) (acc : Str) :
    (Scan.str out pending acc .normal).run (utf8 "\\ufffd" ++ rest) =
      (Scan.str out pending (acc ++ EncodeRune RuneError) .normal).run rest := rfl

/-- Reading back an escaped string gives the string coerced to well-formed
UTF-8. -/
theorem run_escapeFrom : ∀ (n : Nat) (s : Str), s.length ≤ n → ∀ (rest : Str)
    (out : List (Str × Str)) (pending : Option Str) (acc : Str),
    (Scan.str out pending acc .normal).run (escapeFrom 0 s ++ rest) =
      (Scan.str out pending (acc ++ coerceFrom 0 s) .normal).run rest := by
  intro n
  induction n with
  | zero =>
    intro s hs rest out pending acc
    have : s = [] := List.length_eq_zero.mp (by omega)
    subst this
    simp [escapeFrom, coerceFrom]
  | succ n ih =>
    intro s hs rest out pending acc
    cases s with
    | nil => simp [escapeFrom, coerceFrom]
    | cons b rest0 =>
      have hl : rest0.length ≤ n := by simpa using hs
      by_cases hb : b < 0x80
      · have e1 : escapeFrom 0 (b :: rest0) = escapeRune b ++ escapeFrom 0 rest0 := by
          rw [escapeFrom, if_pos hb, escapeRune, if_pos hb]
        have e2 : coerceFrom 0 (b :: rest0) = EncodeRune b ++ coerceFrom 0 rest0 := by
          rw [coerceFrom, if_pos hb, EncodeRune, if_pos hb]
          rfl
        rw [e1, e2, List.append_assoc, run_escapeRune_ascii b hb, ih rest0 hl,
          List.append_assoc]
      · rcases DecodeRune_cases b rest0 (by omega) with hd | ⟨c, tail, rest1, rfl, hc, hc80, he⟩
        · have e1 : escapeFrom 0 (b :: rest0) = utf8 "\\ufffd" ++ escapeFrom 0 rest0 := by
            rw [escapeFrom, if_neg hb, hd]
            simp
          have e2 : coerceFrom 0 (b :: rest0) =
              EncodeRune RuneError ++ coerceFrom 0 rest0 := by
            rw [coerceFrom, if_neg hb, hd]
            rfl
          rw [e1, e2, List.append_assoc, run_ufffd, ih rest0 hl, List.append_assoc]
        · have hl1 : rest1.length ≤ n := by
            simp only [List.length_append] at hl
            omega
          have es : b :: (tail ++ rest1) = EncodeRune c ++ rest1 := by rw [he]; rfl
          rw [es, escapeFrom_EncodeRune c hc, coerceFrom_EncodeRune c hc, List.append_assoc,
            run_escapeRune c hc, ih rest1 hl1, List.append_assoc]

theorem run_escape (s rest : Str) (out : List (Str × Str)) (pending : Option Str)
    (acc : Str) :
    (Scan.str out pending acc .normal).run (escape s ++ rest) =
      (Scan.str out pending (acc ++ ToValid s) .normal).run rest :=
  run_escapeFrom s.length s (le_refl _) rest out pending acc

theorem run_quote_key (k rest : Str) (out : List (Str × Str)) (st : Scan)
    (hst : st = .first out ∨ st = .comma out) :
    st.run (quote k ++ rest) = (Scan.colon out (ToValid k)).run rest := by
  have h : (Scan.str out none [] .normal).run (escape k ++ '"'.toNat :: rest) =
      (Scan.colon out (ToValid k)).run rest := by
    rw [run_escape]
    simp [Scan.run, Scan.step]
  rw [quote, List.cons_append, List.append_assoc, Scan.run]
  rcases hst with rfl | rfl
  · exact h
  · exact h

theorem run_quote_value (k v rest : Str) (out : List (Str × Str)) :
    (Scan.value out k).run (quote v ++ rest) =
      (Scan.more (out ++ [(k, ToValid v)])).run rest := by
  have h : (Scan.str out (some k) [] .normal).run (escape v ++ '"'.toNat :: rest) =
      (Scan.more (out ++ [(k, ToValid v)])).run rest := by
    rw [run_escape]
    simp [Scan.run, Scan.step]
  rw [quote, List.cons_append, List.append_assoc, Scan.run]
  exact h

theorem run_member (kv : Str × Str) (rest : Str) (out : List (Str × Str))
    (st : Scan) (hst : st = .first out ∨ st = .comma out) :
    st.run (encodeMember kv ++ rest) = (Scan.more (out ++ [coerceMember kv])).run rest := by
  rw [encodeMember, List.append_assoc, run_quote_key _ _ out st hst, List.cons_append]
  have : (Scan.colon out (ToValid kv.1)).run (':'.toNat :: (quote kv.2 ++ rest)) =
      (Scan.value out (ToValid kv.1)).run (quote kv.2 ++ rest) := rfl
  rw [this, run_quote_value]
  rfl

theorem run_members (rest : Str) : ∀ (kvs : List (Str × Str))
    (out : List (Str × Str)) (st : Scan), kvs ≠ [] → (st = .first out ∨ st = .comma out) →
    st.run (encodeMembers kvs ++ rest) = (Scan.more (out ++ kvs.map coerceMember)).run rest := by
  intro kvs
  induction kvs with
  | nil => intro out st h; exact absurd rfl h
  | cons kv tl ih =>
    intro out st _ hst
    cases tl with
    | nil => simpa [encodeMembers] using run_member kv rest out st hst
    | cons kv2 tl2 =>
      have e : encodeMembers (kv :: kv2 :: tl2) =
          encodeMember kv ++ ','.toNat :: encodeMembers (kv2 :: tl2) := rfl
      rw [e, List.append_assoc, run_member kv _ out st hst, List.cons_append]
      have : (Scan.more (out ++ [coerceMember kv])).run
          (','.toNat :: (encodeMembers (kv2 :: tl2) ++ rest)) =
          (Scan.comma (out ++ [coerceMember kv])).run
            (encodeMembers (kv2 :: tl2) ++ rest) := rfl
      rw [this, ih (out ++ [coerceMember kv]) _ (by simp) (Or.inr rfl)]
      simp

/-- Reading back what `Encode` writes gives the members that were written, each
key and value coerced to well-formed UTF-8. -/
theorem decodeObject_encodeObject (kvs : List (Str × Str)) :
    decodeObject (encodeObject kvs ++ ['\n'.toNat]) = some (kvs.map coerceMember) := by
  cases kvs with
  | nil => rfl
  | cons kv tl =>
    have h := run_members ('}'.toNat :: ['\n'.toNat]) (kv :: tl) [] (.first [])
      (by simp) (Or.inl rfl)
    have h0 : Scan.start.run (encodeObject (kv :: tl) ++ ['\n'.toNat]) =
        (Scan.first []).run (encodeMembers (kv :: tl) ++ '}'.toNat :: ['\n'.toNat]) := by
      simp [encodeObject, Scan.run, Scan.step, isSpace]
    rw [decodeObject, h0, h]
    rfl

/-! ## Lemmas: headers -/

theorem Header.Get_Set_same (h : Header) (key value : Str) :
    (h.Set key value).Get key = value := by
  simp [Header.Get, Header.Set, List.lookup]

theorem Header.lookup_Del_other (h : Header) (key other : Str) (hne : key ≠ other) :
    (h.Del other).entries.lookup key = h.entries.lookup key := by
  obtain ⟨es⟩ := h
  induction es with
  | nil => rfl
  | cons e es ih =>
    obtain ⟨k, v⟩ := e
    simp only [Header.Del] at ih ⊢
    by_cases hk : k = other
    · subst hk
      have hkk : (key == k) = false := by simpa using hne
      simp [List.filter, List.lookup, hkk, ih]
    · have hko : (k == other) = false := by simpa using hk
      simp only [List.filter, hko, Bool.not_false, List.lookup]
      rw [ih]

theorem Header.Get_Set_other (h : Header) (key other value : Str) (hne : key ≠ other) :
    (h.Set other value).Get key = h.Get key := by
  have hkk : (key == other) = false := by simpa using hne
  simp [Header.Get, Header.Set, List.lookup, hkk, Header.lookup_Del_other h key other hne]

/-! ## Lemmas: the response writer -/

theorem WriteHeader_wroteHeader (w : ResponseWriter) (code : Nat) :
    (w.WriteHeader code).wroteHeader = true := by
  unfold ResponseWriter.WriteHeader
  cases h : w.wroteHeader <;> simp [h]

theorem WriteHeader_of_wrote (w : ResponseWriter) (code : Nat) (h : w.wroteHeader = true) :
    w.WriteHeader code = w := by
  simp [ResponseWriter.WriteHeader, h]

theorem WriteHeader_of_fresh (w : ResponseWriter) (code : Nat) (h : w.wroteHeader = false) :
    w.WriteHeader code = { w with wroteHeader := true, code := code, sent := w.header } := by
  simp [ResponseWriter.WriteHeader, h]

theorem Write_wroteHeader (w : ResponseWriter) (data : Str) :
    (w.Write data).1.wroteHeader = true := by
  have h := WriteHeader_wroteHeader w 200
  unfold ResponseWriter.Write
  dsimp only
  split <;> exact h

theorem Write_code (w : ResponseWriter) (data : Str) :
    (w.Write data).1.code = (w.WriteHeader 200).code := by
  unfold ResponseWriter.Write
  dsimp only
  split <;> rfl

theorem Write_sent (w : ResponseWriter) (data : Str) :
    (w.Write data).1.sent = (w.WriteHeader 200).sent := by
  unfold ResponseWriter.Write
  dsimp only
  split <;> rfl

theorem Write_Status (w : ResponseWriter) (data : Str) :
    (w.Write data).1.Status = (w.WriteHeader 200).Status := by
  simp [ResponseWriter.Status, Write_wroteHeader, Write_code, WriteHeader_wroteHeader]

theorem Write_SentHeader (w : ResponseWriter) (data : Str) :
    (w.Write data).1.SentHeader = (w.WriteHeader 200).SentHeader := by
  simp [ResponseWriter.SentHeader, Write_wroteHeader, Write_sent, WriteHeader_wroteHeader]

/-! ## Lemmas: the writer after `corsMiddleware` set its headers -/

theorem corsWriter_wroteHeader (w : ResponseWriter) :
    (corsWriter w).wroteHeader = w.wroteHeader := rfl

theorem corsWriter_body (w : ResponseWriter) : (corsWriter w).body = w.body := rfl

theorem corsWriter_Get (w : ResponseWriter) :
    (corsWriter w).header.Get (utf8 "Access-Control-Allow-Origin") = (utf8 "*") ∧
    (corsWriter w).header.Get (utf8 "Access-Control-Allow-Methods") =
      (utf8 "GET, POST, PUT, DELETE, OPTIONS") ∧
    (corsWriter w).header.Get (utf8 "Access-Control-Allow-Headers") =
      (utf8 "Content-Type, Authorization") := by
  refine ⟨?_, ?_, ?_⟩
  · simp only [corsWriter, ResponseWriter.SetHeader]
    rw [Header.Get_Set_other _ _ _ _ (by decide), Header.Get_Set_other _ _ _ _ (by decide),
      Header.Get_Set_same]
  · simp only [corsWriter, ResponseWriter.SetHeader]
    rw [Header.Get_Set_other _ _ _ _ (by decide), Header.Get_Set_same]
  · simp only [corsWriter, ResponseWriter.SetHeader]
    rw [Header.Get_Set_same]

theorem corsMiddleware_eq (next : Handler) (r : Request) (c : Ctx) :
    corsMiddleware next r c =
      if r.Method = (utf8 "OPTIONS") then { c with w := (corsWriter c.w).WriteHeader StatusOK }
      else next r { c with w := corsWriter c.w } := rfl

/-! ## Lemmas: the three handlers -/

theorem healthHandler_eq (p : Process) (r : Request) (c : Ctx) :
    healthHandler p r c =
      respondJSON c
        (HealthResponse.Marshal ⟨utf8 "OK", p.formatRFC3339 c.now, version,
          p.durationString ((c.now : Int) - (p.startTime : Int))⟩)
        (utf8 "Error encoding health response: ") := rfl

theorem infoHandler_eq (p : Process) (r : Request) (c : Ctx) :
    infoHandler p r c =
      respondJSON c
        (InfoResponse.Marshal ⟨appName, version, p.goVersion, buildTime p, environment p⟩)
        (utf8 "Error encoding info response: ") := rfl

theorem homeHandler_eq (r : Request) (c : Ctx) :
    homeHandler r c =
      respondJSON c (MarshalMap homeMessage) (utf8 "Error encoding home response: ") := rfl

theorem Error_of_wrote (w : ResponseWriter) (error : Str) (code : Nat)
    (h : w.wroteHeader = true) :
    (Error w error code).Status = w.Status ∧ (Error w error code).SentHeader = w.SentHeader := by
  unfold Error
  dsimp only
  rw [Write_Status, Write_SentHeader]
  have h3 : (((w.DelHeader (utf8 "Content-Length")).SetHeader (utf8 "Content-Type")
      (utf8 "text/plain; charset=utf-8")).SetHeader (utf8 "X-Content-Type-Options")
      (utf8 "nosniff")).wroteHeader = true := h
  rw [WriteHeader_of_wrote _ code h3, WriteHeader_of_wrote _ 200 h3]
  simp [ResponseWriter.Status, ResponseWriter.SentHeader, ResponseWriter.SetHeader,
    ResponseWriter.DelHeader, h]

theorem respondJSON_sent (c : Ctx) (json logText : Str) (hw : c.w.wroteHeader = false) :
    (respondJSON c json logText).w.Status = 200 ∧
    (respondJSON c json logText).w.SentHeader =
      c.w.header.Set (utf8 "Content-Type") (utf8 "application/json") := by
  have hw1 : (c.w.SetHeader (utf8 "Content-Type") (utf8 "application/json")).wroteHeader
      = false := hw
  have hS : ((c.w.SetHeader (utf8 "Content-Type") (utf8 "application/json")).WriteHeader
      StatusOK).Status = 200 := by
    rw [WriteHeader_of_fresh _ _ hw1]; rfl
  have hH : ((c.w.SetHeader (utf8 "Content-Type") (utf8 "application/json")).WriteHeader
      StatusOK).SentHeader = c.w.header.Set (utf8 "Content-Type") (utf8 "application/json") := by
    rw [WriteHeader_of_fresh _ _ hw1]
    rfl
  have hE := Write_Status ((c.w.SetHeader (utf8 "Content-Type")
    (utf8 "application/json")).WriteHeader StatusOK) (json ++ ['\n'.toNat])
  have hE2 := Write_SentHeader ((c.w.SetHeader (utf8 "Content-Type")
    (utf8 "application/json")).WriteHeader StatusOK) (json ++ ['\n'.toNat])
  have hE3 := Write_wroteHeader ((c.w.SetHeader (utf8 "Content-Type")
    (utf8 "application/json")).WriteHeader StatusOK) (json ++ ['\n'.toNat])
  rw [WriteHeader_of_wrote _ 200 (WriteHeader_wroteHeader _ _)] at hE hE2
  unfold respondJSON Encode
  dsimp only
  split
  · rename_i w3 heq
    have e : w3 = (((c.w.SetHeader (utf8 "Content-Type")
      (utf8 "application/json")).WriteHeader StatusOK).Write (json ++ ['\n'.toNat])).1 := by
      rw [heq]
    subst e
    exact ⟨hE.trans hS, hE2.trans hH⟩
  · rename_i w3 err heq
    have e : w3 = (((c.w.SetHeader (utf8 "Content-Type")
      (utf8 "application/json")).WriteHeader StatusOK).Write (json ++ ['\n'.toNat])).1 := by
      rw [heq]
    subst e
    obtain ⟨a, b⟩ := Error_of_wrote _ (utf8 "Internal Server Error")
      StatusInternalServerError hE3
    exact ⟨by rw [a]; exact hE.trans hS, by rw [b, hE2]; exact hH⟩

theorem respondJSON_head (c : Ctx) (json logText : Str) (hw : c.w.wroteHeader = false) :
    (respondJSON c json logText).w.Status = 200 ∧
    (respondJSON c json logText).w.SentHeader.Get (utf8 "Content-Type") =
      (utf8 "application/json") := by
  obtain ⟨h1, h2⟩ := respondJSON_sent c json logText hw
  exact ⟨h1, by rw [h2]; exact Header.Get_Set_same _ _ _⟩

theorem respondJSON_body (c : Ctx) (json logText : Str) (hw : c.w.wroteHeader = false)
    (hok : c.w.failure c.w.writes = none) :
    (respondJSON c json logText).w.body = c.w.body ++ (json ++ ['\n'.toNat]) ∧
    (respondJSON c json logText).log = c.log := by
  simp [respondJSON, Encode, ResponseWriter.Write, ResponseWriter.WriteHeader,
    ResponseWriter.SetHeader, hw, hok]

theorem getEnv_of_set (env : List (Str × Str)) (key fallback value : Str)
    (h : env.lookup key = some value) (hne : value ≠ []) : getEnv env key fallback = value := by
  simp [getEnv, Getenv, h, hne]

theorem getEnv_of_unset (env : List (Str × Str)) (key fallback : Str)
    (h : env.lookup key = none ∨ env.lookup key = some []) :
    getEnv env key fallback = fallback := by
  rcases h with h | h <;> simp [getEnv, Getenv, h]

theorem UnmarshalHealth_Marshal (resp : HealthResponse) :
    UnmarshalHealth (resp.Marshal ++ ['\n'.toNat]) =
      some ⟨ToValid resp.Status, ToValid resp.Timestamp, ToValid resp.Version,
        ToValid resp.Uptime⟩ := by
  rw [UnmarshalHealth, HealthResponse.Marshal, decodeObject_encodeObject]
  rfl

theorem UnmarshalInfo_Marshal (resp : InfoResponse) :
    UnmarshalInfo (resp.Marshal ++ ['\n'.toNat]) =
      some ⟨ToValid resp.Application, ToValid resp.Version, ToValid resp.GoVersion,
        ToValid resp.BuildTime, ToValid resp.Environment⟩ := by
  rw [UnmarshalInfo, InfoResponse.Marshal, decodeObject_encodeObject]
  rfl

theorem UnmarshalMap_homeMessage :
    UnmarshalMap (MarshalMap homeMessage ++ ['\n'.toNat]) =
      some [(utf8 "description", utf8 "Automated Golang Deployment Pipeline"),
            (utf8 "endpoints", utf8 "/health, /info"),
            (utf8 "message", utf8 "Welcome to CICD360! 🚀"),
            (utf8 "version", version)] := by
  decide

/-- Well-formedness matters: with `ENVIRONMENT` set to the bytes `a`, `0xff`,
`b`, the environment the body decodes to has U+FFFD in place of the byte `0xff`
and so differs from the process-wide value. -/
theorem infoHandler_coerces_environment :
    (UnmarshalInfo (infoHandler (sampleProcess [(utf8 "ENVIRONMENT", [0x61, 0xFF, 0x62])])
      (NewRequest (utf8 "GET") (utf8 "/info")) ⟨NewRecorder, [], 0⟩).w.body).map
        (fun resp => resp.Environment) = some [0x61, 0xEF, 0xBF, 0xBD, 0x62] ∧
    environment (sampleProcess [(utf8 "ENVIRONMENT", [0x61, 0xFF, 0x62])]) =
      [0x61, 0xFF, 0x62] := by
  decide

/-! ## Lemmas: the router -/

theorem findHandler_home (p : Process) (r : Request) (hp : r.EscapedPath = utf8 "/") :
    (main.mux p).findHandler r = .handler homeHandler (utf8 "/") := by
  unfold ServeMux.findHandler
  rw [hp]
  by_cases hm : r.Method = utf8 "CONNECT"
  · rw [if_pos hm]; rfl
  · rw [if_neg hm]; rfl

theorem findHandler_health (p : Process) (r : Request) (hp : r.EscapedPath = utf8 "/health") :
    (main.mux p).findHandler r = .handler (healthHandler p) (utf8 "/health") := by
  unfold ServeMux.findHandler
  rw [hp]
  by_cases hm : r.Method = utf8 "CONNECT"
  · rw [if_pos hm]; rfl
  · rw [if_neg hm]; rfl

theorem findHandler_info (p : Process) (r : Request) (hp : r.EscapedPath = utf8 "/info") :
    (main.mux p).findHandler r = .handler (infoHandler p) (utf8 "/info") := by
  unfold ServeMux.findHandler
  rw [hp]
  by_cases hm : r.Method = utf8 "CONNECT"
  · rw [if_pos hm]; rfl
  · rw [if_neg hm]; rfl

/-! ## The claims -/

/-- C1. For every wrapped handler and every request whose method is `OPTIONS`,
whatever its path, `corsMiddleware` answers on a fresh writer with status 200
and an empty body, and the wrapped handler is not run: the outcome is the
incoming context with the headers set and the header written, the same for
every wrapped handler. -/
theorem corsMiddleware_options (next : Handler) (r : Request) (c : Ctx)
    (hm : r.Method = (utf8 "OPTIONS")) (hw : c.w.wroteHeader = false) (hb : c.w.body = []) :
    (corsMiddleware next r c).w.Status = 200 ∧
    (corsMiddleware next r c).w.body = [] ∧
    corsMiddleware next r c = { c with w := (corsWriter c.w).WriteHeader StatusOK } ∧
    ∀ other : Handler, corsMiddleware other r c = corsMiddleware next r c := by
  have e : ∀ h : Handler, corsMiddleware h r c =
      { c with w := (corsWriter c.w).WriteHeader StatusOK } := by
    intro h; rw [corsMiddleware_eq, if_pos hm]
  refine ⟨?_, ?_, e next, fun other => by rw [e other, e next]⟩
  · rw [e next]
    simp [ResponseWriter.Status, ResponseWriter.WriteHeader, corsWriter_wroteHeader, hw, StatusOK]
  · rw [e next]
    simp [ResponseWriter.WriteHeader, corsWriter_wroteHeader, hw, corsWriter_body, hb]

theorem corsMiddleware_options_witness :
    (corsMiddleware testHandler (NewRequest (utf8 "OPTIONS") (utf8 "/anything"))
        ⟨NewRecorder, [], 0⟩).w.Status = 200 ∧
    (corsMiddleware testHandler (NewRequest (utf8 "OPTIONS") (utf8 "/anything"))
        ⟨NewRecorder, [], 0⟩).w.body = [] :=
  have h := corsMiddleware_options testHandler (NewRequest (utf8 "OPTIONS") (utf8 "/anything"))
    ⟨NewRecorder, [], 0⟩ rfl rfl rfl
  ⟨h.1, h.2.1⟩

/-- C2, as stated, fails: in `corsMiddleware(stripOrigin)`, where the wrapped
handler removes `Access-Control-Allow-Origin` from the header map before it
writes the header, the response to `GET /test` on a fresh recorder has no such
header, so it does not carry the three headers. -/
theorem stripOrigin_drops_header :
    (corsMiddleware stripOrigin (NewRequest (utf8 "GET") (utf8 "/test"))
      ⟨NewRecorder, [], 0⟩).w.SentHeader.Get (utf8 "Access-Control-Allow-Origin") = [] ∧
    ¬ HasCorsHeaders (corsMiddleware stripOrigin (NewRequest (utf8 "GET") (utf8 "/test"))
      ⟨NewRecorder, [], 0⟩).w := by
  decide

/-- C2, amended. `corsMiddleware` sets the three headers before anything else;
for an `OPTIONS` request, and for every other request whose wrapped handler
sends these three entries of the header map as it received them, the response
on a fresh writer carries the three headers with their literal values. -/
theorem corsMiddleware_headers (next : Handler) (r : Request) (c : Ctx)
    (hw : c.w.wroteHeader = false)
    (hnext : r.Method ≠ (utf8 "OPTIONS") → ∀ c1 : Ctx, c1.w.wroteHeader = false →
      ∀ key ∈ corsKeys, (next r c1).w.SentHeader.Get key = c1.w.header.Get key) :
    HasCorsHeaders (corsMiddleware next r c).w := by
  obtain ⟨g1, g2, g3⟩ := corsWriter_Get c.w
  rw [corsMiddleware_eq]
  by_cases hm : r.Method = (utf8 "OPTIONS")
  · rw [if_pos hm]
    simp only [HasCorsHeaders, ResponseWriter.SentHeader, ResponseWriter.WriteHeader,
      corsWriter_wroteHeader, hw]
    exact ⟨g1, g2, g3⟩
  · rw [if_neg hm]
    have hk := hnext hm { c with w := corsWriter c.w } (by simpa [corsWriter_wroteHeader] using hw)
    refine ⟨?_, ?_, ?_⟩
    · rw [hk _ (by simp [corsKeys])]; exact g1
    · rw [hk _ (by simp [corsKeys])]; exact g2
    · rw [hk _ (by simp [corsKeys])]; exact g3

theorem corsMiddleware_headers_witness :
    HasCorsHeaders (corsMiddleware testHandler (NewRequest (utf8 "GET") (utf8 "/test"))
      ⟨NewRecorder, [], 0⟩).w :=
  corsMiddleware_headers testHandler (NewRequest (utf8 "GET") (utf8 "/test"))
    ⟨NewRecorder, [], 0⟩ rfl (by
      intro _ c1 h1 key _
      simp only [testHandler, Write_SentHeader]
      rw [WriteHeader_of_wrote _ _ (WriteHeader_wroteHeader _ _), WriteHeader_of_fresh _ _ h1]
      rfl)

/-- C4. `getEnv` is a total function of the environment, the name and the
fallback: it returns the value of the variable when the variable is set to a
non-empty string, and the fallback when the variable is unset or set to the
empty string.  It only reads the environment. -/
theorem getEnv_spec (env : List (Str × Str)) (key fallback : Str) :
    (∀ value, env.lookup key = some value → value ≠ [] → getEnv env key fallback = value) ∧
    (env.lookup key = none ∨ env.lookup key = some [] → getEnv env key fallback = fallback) := by
  constructor
  · intro value h hne
    simp [getEnv, Getenv, h, hne]
  · rintro (h | h) <;> simp [getEnv, Getenv, h]

theorem getEnv_spec_witness :
    getEnv [((utf8 "TEST_VAR"), (utf8 "test_value"))] (utf8 "TEST_VAR") (utf8 "default_value")
      = (utf8 "test_value") ∧
    getEnv [((utf8 "TEST_VAR"), (utf8 "test_value"))] (utf8 "NON_EXISTING_VAR")
      (utf8 "default_value") = (utf8 "default_value") ∧
    getEnv [((utf8 "TEST_VAR"), [])] (utf8 "TEST_VAR") (utf8 "default_value")
      = (utf8 "default_value") :=
  ⟨(getEnv_spec _ _ _).1 _ (by decide) (by decide),
   (getEnv_spec [((utf8 "TEST_VAR"), (utf8 "test_value"))] (utf8 "NON_EXISTING_VAR")
      (utf8 "default_value")).2 (Or.inl (by decide)),
   (getEnv_spec [((utf8 "TEST_VAR"), [])] (utf8 "TEST_VAR") (utf8 "default_value")).2
      (Or.inr (by decide))⟩

/-- C5. For every wrapped handler and every request, the context
`loggingMiddleware` returns is the one the wrapped handler returns when run
directly on the same request and incoming context, with one line added at the
end of the log: the wrapped handler is applied once, to the context as it came
in, and the line is printed after it returned.  In particular the status code
and the body of the response are those of the wrapped handler. -/
theorem loggingMiddleware_transparent (p : Process) (next : Handler) (r : Request) (c : Ctx) :
    (loggingMiddleware p next r c).w.Status = (next r c).w.Status ∧
    (loggingMiddleware p next r c).w.body = (next r c).w.body ∧
    loggingMiddleware p next r c =
      { next r c with
        log := (next r c).log ++
          [requestLine p r (((next r c).now : Int) - (c.now : Int))] } :=
  ⟨rfl, rfl, rfl⟩

/-- C3: the code does not do what the claim says when encoding fails.  On a
fresh writer whose first `Write` fails with `err` (and whose later ones
succeed), each of the three handlers logs the error and calls `http.Error` with
500, but the header was already written with 200: the status the client
receives is 200, the content type sent is still `application/json`, and the
body is the text of `http.Error`. -/
theorem handlers_encode_failure (p : Process) (r : Request) (err : Str) (log : List Str)
    (now : Nat) :
    let c : Ctx := ⟨ResponseWriter.fresh (fun n => if n = 0 then some err else none), log, now⟩
    ((healthHandler p r c).w.Status = 200 ∧
      (healthHandler p r c).w.SentHeader.Get (utf8 "Content-Type") = (utf8 "application/json") ∧
      (healthHandler p r c).w.body = (utf8 "Internal Server Error\n") ∧
      (healthHandler p r c).log = log ++ [(utf8 "Error encoding health response: ") ++ err]) ∧
    ((infoHandler p r c).w.Status = 200 ∧
      (infoHandler p r c).w.SentHeader.Get (utf8 "Content-Type") = (utf8 "application/json") ∧
      (infoHandler p r c).w.body = (utf8 "Internal Server Error\n") ∧
      (infoHandler p r c).log = log ++ [(utf8 "Error encoding info response: ") ++ err]) ∧
    ((homeHandler r c).w.Status = 200 ∧
      (homeHandler r c).w.SentHeader.Get (utf8 "Content-Type") = (utf8 "application/json") ∧
      (homeHandler r c).w.body = (utf8 "Internal Server Error\n") ∧
      (homeHandler r c).log = log ++ [(utf8 "Error encoding home response: ") ++ err]) :=
  ⟨⟨rfl, rfl, rfl, rfl⟩, ⟨rfl, rfl, rfl, rfl⟩, ⟨rfl, rfl, rfl, rfl⟩⟩

/-- C6. For every request and every reading of the clock, `healthHandler` on a
fresh writer responds with status 200 and content type `application/json`;
when the write of the body succeeds, the body decodes to a `HealthResponse`
with status `OK` and version equal to the configured version, `1.0.0`. -/
theorem healthHandler_response (p : Process) (r : Request) (c : Ctx)
    (hw : c.w.wroteHeader = false) (hb : c.w.body = []) :
    (healthHandler p r c).w.Status = 200 ∧
    (healthHandler p r c).w.SentHeader.Get (utf8 "Content-Type") = (utf8 "application/json") ∧
    (c.w.failure c.w.writes = none →
      ∃ resp, UnmarshalHealth (healthHandler p r c).w.body = some resp ∧
        resp.Status = (utf8 "OK") ∧ resp.Version = version ∧ version = (utf8 "1.0.0")) := by
  rw [healthHandler_eq]
  obtain ⟨h1, h2⟩ := respondJSON_head c _ (utf8 "Error encoding health response: ") hw
  refine ⟨h1, h2, fun hok => ?_⟩
  rw [(respondJSON_body c _ _ hw hok).1, hb, List.nil_append, UnmarshalHealth_Marshal]
  exact ⟨_, rfl, rfl, rfl, rfl⟩

theorem healthHandler_response_witness :
    (healthHandler (sampleProcess []) (NewRequest (utf8 "GET") (utf8 "/health"))
      ⟨NewRecorder, [], 7⟩).w.Status = 200 ∧
    ∃ resp, UnmarshalHealth (healthHandler (sampleProcess [])
        (NewRequest (utf8 "GET") (utf8 "/health")) ⟨NewRecorder, [], 7⟩).w.body = some resp ∧
      resp.Status = (utf8 "OK") ∧ resp.Version = version ∧ version = (utf8 "1.0.0") :=
  have h := healthHandler_response (sampleProcess []) (NewRequest (utf8 "GET") (utf8 "/health"))
    ⟨NewRecorder, [], 7⟩ rfl rfl
  ⟨h.1, h.2.2 rfl⟩

/-- C7, as stated, fails: in a process started with `ENVIRONMENT` set to the
empty string the variable is set, its value is the empty string, and the
process-wide value, which `GET /info` reports, is `development`. -/
theorem empty_environment_variable :
    (sampleProcess [((utf8 "ENVIRONMENT"), [])]).env.lookup (utf8 "ENVIRONMENT") = some [] ∧
    environment (sampleProcess [((utf8 "ENVIRONMENT"), [])]) = (utf8 "development") ∧
    environment (sampleProcess [((utf8 "ENVIRONMENT"), [])]) ≠ [] ∧
    (UnmarshalInfo (infoHandler (sampleProcess [((utf8 "ENVIRONMENT"), [])])
      (NewRequest (utf8 "GET") (utf8 "/info")) ⟨NewRecorder, [], 0⟩).w.body).map
        (fun resp => resp.Environment) = some (utf8 "development") := by
  decide

/-- C7, amended. For every request, the body `infoHandler` writes on a fresh
writer whose write succeeds decodes to an `InfoResponse` with application
`CICD360` and version `1.0.0`, and, when the process-wide environment value is
well-formed UTF-8, with that value as environment; the value is the value of
`ENVIRONMENT` when the variable is set to a non-empty string at process start,
and `development` when it is unset or set to the empty string. -/
theorem infoHandler_response (p : Process) (r : Request) (c : Ctx)
    (hw : c.w.wroteHeader = false) (hb : c.w.body = [])
    (hok : c.w.failure c.w.writes = none) :
    (∃ resp, UnmarshalInfo (infoHandler p r c).w.body = some resp ∧
      resp.Application = appName ∧ resp.Version = version ∧
      (ValidString (environment p) → resp.Environment = environment p)) ∧
    appName = utf8 "CICD360" ∧ version = utf8 "1.0.0" ∧
    (∀ value, p.env.lookup (utf8 "ENVIRONMENT") = some value → value ≠ [] →
      environment p = value) ∧
    (p.env.lookup (utf8 "ENVIRONMENT") = none ∨ p.env.lookup (utf8 "ENVIRONMENT") = some [] →
      environment p = utf8 "development") := by
  refine ⟨?_, rfl, rfl, ?_, ?_⟩
  · rw [infoHandler_eq, (respondJSON_body c _ _ hw hok).1, hb, List.nil_append,
      UnmarshalInfo_Marshal]
    exact ⟨_, rfl, rfl, rfl, fun hv => ToValid_of_ValidString _ hv⟩
  · intro value h hne
    exact getEnv_of_set _ _ _ _ h hne
  · exact getEnv_of_unset _ _ _

theorem infoHandler_response_witness :
    ∃ resp, UnmarshalInfo (infoHandler (sampleProcess [(utf8 "ENVIRONMENT", utf8 "tëst")])
        (NewRequest (utf8 "GET") (utf8 "/info")) ⟨NewRecorder, [], 7⟩).w.body = some resp ∧
      resp.Application = appName ∧ resp.Version = version ∧
      resp.Environment = utf8 "tëst" :=
  have h := infoHandler_response (sampleProcess [(utf8 "ENVIRONMENT", utf8 "tëst")])
    (NewRequest (utf8 "GET") (utf8 "/info")) ⟨NewRecorder, [], 7⟩ rfl rfl rfl
  h.1.imp fun _ hr => ⟨hr.1, hr.2.1, hr.2.2.1, hr.2.2.2 ⟨"tëst", rfl⟩⟩

/-- C8. For every request, `homeHandler` on a fresh writer responds with status
200 and content type `application/json`; when the write of the body succeeds,
the body decodes to a map whose keys are exactly `message`, `description`,
`endpoints` and `version`, each once, with `version` equal to the configured
version. -/
theorem homeHandler_response (r : Request) (c : Ctx)
    (hw : c.w.wroteHeader = false) (hb : c.w.body = []) :
    (homeHandler r c).w.Status = 200 ∧
    (homeHandler r c).w.SentHeader.Get (utf8 "Content-Type") = (utf8 "application/json") ∧
    (c.w.failure c.w.writes = none →
      ∃ m, UnmarshalMap (homeHandler r c).w.body = some m ∧
        (∀ key, key ∈ m.map Prod.fst ↔
          key = (utf8 "message") ∨ key = (utf8 "description") ∨
          key = (utf8 "endpoints") ∨ key = (utf8 "version")) ∧
        m.length = 4 ∧
        m.lookup (utf8 "version") = some version) := by
  rw [homeHandler_eq]
  obtain ⟨h1, h2⟩ := respondJSON_head c _ (utf8 "Error encoding home response: ") hw
  refine ⟨h1, h2, fun hok => ?_⟩
  rw [(respondJSON_body c _ _ hw hok).1, hb, List.nil_append, UnmarshalMap_homeMessage]
  refine ⟨_, rfl, ?_, rfl, by decide⟩
  intro key
  simp only [List.map, List.mem_cons, List.mem_nil_iff, or_false]
  tauto

theorem homeHandler_response_witness :
    (homeHandler (NewRequest (utf8 "GET") (utf8 "/")) ⟨NewRecorder, [], 7⟩).w.Status = 200 ∧
    ∃ m, UnmarshalMap (homeHandler (NewRequest (utf8 "GET") (utf8 "/"))
        ⟨NewRecorder, [], 7⟩).w.body = some m ∧ m.length = 4 ∧
      m.lookup (utf8 "version") = some version :=
  have h := homeHandler_response (NewRequest (utf8 "GET") (utf8 "/")) ⟨NewRecorder, [], 7⟩
    rfl rfl
  ⟨h.1, (h.2.2 rfl).imp fun _ hm => ⟨hm.1, hm.2.2.1, hm.2.2.2⟩⟩

/-- C9: the code does not do what the claim says for the pattern `/`.  The path
of `GET /anything` is not `/`, and the router dispatches the request to
`homeHandler`, which answers it with status 200: `HandleFunc("/", homeHandler)`
registers the subtree of all paths, not the root path alone. -/
theorem anything_reaches_homeHandler :
    (NewRequest (utf8 "GET") (utf8 "/anything")).Path ≠ utf8 "/" ∧
    (main.mux (sampleProcess [])).findHandler (NewRequest (utf8 "GET") (utf8 "/anything")) =
      .handler homeHandler (utf8 "/") ∧
    (main.mux (sampleProcess [])).ServeHTTP sampleRedirect
        (NewRequest (utf8 "GET") (utf8 "/anything")) ⟨NewRecorder, [], 0⟩ =
      homeHandler (NewRequest (utf8 "GET") (utf8 "/anything")) ⟨NewRecorder, [], 0⟩ ∧
    ((main.mux (sampleProcess [])).ServeHTTP sampleRedirect
        (NewRequest (utf8 "GET") (utf8 "/anything")) ⟨NewRecorder, [], 0⟩).w.Status = 200 :=
  ⟨by decide, rfl, rfl, by decide⟩

/-- C10, as stated, fails: the request `http.NewRequest("GET", "%2Fhealth", nil)`
has method `GET` and path `/health`, but the router reads its escaped path,
`%2Fhealth`, which is not clean, and answers with a redirect: `healthHandler`
is not reached and the status is the one of the redirect, not 200.  A request
for the path `/health` whose `RequestURI` is `*` is answered with status 400. -/
theorem escaped_slash_is_redirected :
    (escapedSlashRequest.Path = utf8 "/health" ∧
      escapedSlashRequest.Method ≠ utf8 "OPTIONS" ∧
      (main.mux (sampleProcess [])).findHandler escapedSlashRequest =
        .redirect (utf8 "/%2Fhealth") ∧
      (main.handler (sampleProcess []) sampleRedirect escapedSlashRequest
        ⟨NewRecorder, [], 0⟩).w.Status = 307 ∧
      (main.handler (sampleProcess []) sampleRedirect escapedSlashRequest
        ⟨NewRecorder, [], 0⟩).w.body = []) ∧
    (asteriskRequest.Path = utf8 "/health" ∧
      asteriskRequest.Method ≠ utf8 "OPTIONS" ∧
      (main.handler (sampleProcess []) sampleRedirect asteriskRequest
        ⟨NewRecorder, [], 0⟩).w.Status = 400 ∧
      (main.handler (sampleProcess []) sampleRedirect asteriskRequest
        ⟨NewRecorder, [], 0⟩).w.body = []) :=
  ⟨⟨by decide, by decide, rfl, by decide, by decide⟩,
   ⟨by decide, by decide, by decide, by decide⟩⟩

/-- C10, amended. For the composed handler of `main`, every request whose method
is not `OPTIONS`, whose request target is not the asterisk form, and whose
escaped path (the form the router reads) is `/`, `/health` or `/info` is
answered as by the two middlewares wrapped around `homeHandler`,
`healthHandler` or `infoHandler` respectively, whatever the method; on a fresh
writer the response has status 200, content type `application/json` and the
three CORS headers. -/
theorem handler_routes (p : Process) (RedirectHandler : Str → Handler) (r : Request)
    (c : Ctx) (hm : r.Method ≠ utf8 "OPTIONS") (hu : r.RequestURI ≠ utf8 "*")
    (hw : c.w.wroteHeader = false) :
    (r.EscapedPath = utf8 "/" →
      main.handler p RedirectHandler r c =
        loggingMiddleware p (corsMiddleware homeHandler) r c) ∧
    (r.EscapedPath = utf8 "/health" →
      main.handler p RedirectHandler r c =
        loggingMiddleware p (corsMiddleware (healthHandler p)) r c) ∧
    (r.EscapedPath = utf8 "/info" →
      main.handler p RedirectHandler r c =
        loggingMiddleware p (corsMiddleware (infoHandler p)) r c) ∧
    (r.EscapedPath = utf8 "/" ∨ r.EscapedPath = utf8 "/health" ∨
        r.EscapedPath = utf8 "/info" →
      (main.handler p RedirectHandler r c).w.Status = 200 ∧
      (main.handler p RedirectHandler r c).w.SentHeader.Get (utf8 "Content-Type") =
        utf8 "application/json" ∧
      HasCorsHeaders (main.handler p RedirectHandler r c).w) := by
  have served : ∀ (h : Handler) (pat : Str), (main.mux p).findHandler r = .handler h pat →
      main.handler p RedirectHandler r c = loggingMiddleware p (corsMiddleware h) r c := by
    intro h pat hf
    have hmux : ∀ c1 : Ctx, (main.mux p).ServeHTTP RedirectHandler r c1 = h r c1 := by
      intro c1
      unfold ServeMux.ServeHTTP
      rw [if_neg hu, hf]
    unfold main.handler loggingMiddleware
    rw [corsMiddleware_eq, corsMiddleware_eq, if_neg hm, if_neg hm, hmux]
  have answered : ∀ h : Handler,
      (∀ c1 : Ctx, ∃ json logText, h r c1 = respondJSON c1 json logText) →
      main.handler p RedirectHandler r c = loggingMiddleware p (corsMiddleware h) r c →
      (main.handler p RedirectHandler r c).w.Status = 200 ∧
      (main.handler p RedirectHandler r c).w.SentHeader.Get (utf8 "Content-Type") =
        utf8 "application/json" ∧
      HasCorsHeaders (main.handler p RedirectHandler r c).w := by
    intro h hresp hmain
    have hwr : (main.handler p RedirectHandler r c).w =
        (h r { c with w := corsWriter c.w }).w := by
      rw [hmain]
      show (corsMiddleware h r c).w = _
      rw [corsMiddleware_eq, if_neg hm]
    obtain ⟨json, logText, hs⟩ := hresp { c with w := corsWriter c.w }
    obtain ⟨s1, s2⟩ := respondJSON_sent { c with w := corsWriter c.w } json logText
      (by simpa [corsWriter_wroteHeader] using hw)
    obtain ⟨g1, g2, g3⟩ := corsWriter_Get c.w
    refine ⟨?_, ?_, ?_, ?_, ?_⟩
    · rw [hwr, hs]; exact s1
    · rw [hwr, hs, s2]; exact Header.Get_Set_same _ _ _
    · rw [hwr, hs, s2, Header.Get_Set_other _ _ _ _ (by decide)]; exact g1
    · rw [hwr, hs, s2, Header.Get_Set_other _ _ _ _ (by decide)]; exact g2
    · rw [hwr, hs, s2, Header.Get_Set_other _ _ _ _ (by decide)]; exact g3
  have e1 := fun hp => served _ _ (findHandler_home p r hp)
  have e2 := fun hp => served _ _ (findHandler_health p r hp)
  have e3 := fun hp => served _ _ (findHandler_info p r hp)
  refine ⟨e1, e2, e3, ?_⟩
  rintro (hp | hp | hp)
  · exact answered _ (fun c1 => ⟨_, _, homeHandler_eq r c1⟩) (e1 hp)
  · exact answered _ (fun c1 => ⟨_, _, healthHandler_eq p r c1⟩) (e2 hp)
  · exact answered _ (fun c1 => ⟨_, _, infoHandler_eq p r c1⟩) (e3 hp)

theorem handler_routes_witness :
    main.handler (sampleProcess []) sampleRedirect
        (NewRequest (utf8 "DELETE") (utf8 "/health")) ⟨NewRecorder, [], 7⟩ =
      loggingMiddleware (sampleProcess []) (corsMiddleware (healthHandler (sampleProcess [])))
        (NewRequest (utf8 "DELETE") (utf8 "/health")) ⟨NewRecorder, [], 7⟩ ∧
    (main.handler (sampleProcess []) sampleRedirect
      (NewRequest (utf8 "DELETE") (utf8 "/health")) ⟨NewRecorder, [], 7⟩).w.Status = 200 ∧
    HasCorsHeaders (main.handler (sampleProcess []) sampleRedirect
      (NewRequest (utf8 "DELETE") (utf8 "/health")) ⟨NewRecorder, [], 7⟩).w :=
  have h := handler_routes (sampleProcess []) sampleRedirect
    (NewRequest (utf8 "DELETE") (utf8 "/health")) ⟨NewRecorder, [], 7⟩
    (by decide) (by decide) rfl
  ⟨h.2.1 rfl, (h.2.2.2 (Or.inr (Or.inl rfl))).1, (h.2.2.2 (Or.inr (Or.inl rfl))).2.2⟩

end CICD360
